import Mathlib

/-!
# Kansuler/speedrail: the execution engine and its structured error

Shallow embedding of `error.go`, `condition.go`, `strategy.go` and
`speedrail.go`.

Conventions of the embedding.

* A Go interface value that may be nil is an `Option`: `none` is nil.
* `context.Context` values are elements of an arbitrary type `Ctx`; the
  container and the model are elements of arbitrary types `C` and `M`.
* A Go slice is a `List`; a slice that is compared against nil (the receiver
  of `Execute`) is an `Option (List _)`, where `some []` is the empty,
  non-nil slice.
* The only implementation of the interface `Error` in the repository is
  `defaultError`, so an `Error` value is an `Option defaultError`.
* A `defaultError` is first the value that it shows when it is returned, its
  trail being the list of its elements. The section on the storage of trails
  gives `NewError`, `Merge` and the strategies `Merge` and `ThrowError` again
  with the backing arrays of the trails, which `append` shares.
* Go `int` status codes are only compared, never computed with: they are `Int`.
* Strategies are total functions (a nil function value, a panic and a call
  that does not return are outside the embedding); what a strategy does
  besides returning is carried by the context and the model it returns.
-/

set_option autoImplicit false

namespace speedrail

/-! ## Go standard library: `error` values and `errors.Is` -/

/-- Non-nil values of the Go interface `error`.

* `errorString`: the pointer that `errors.New` returns; `addr` is its identity
  and `s` its text. Comparable, no `Is` method, no `Unwrap`.
* `wrapError`: the pointer that `fmt.Errorf` returns for the verb %w.
  Comparable, no `Is` method, `Unwrap` returns `err`.
* `speedrailError`: a `defaultError` of this library held in an `error`
  variable, with its trail (origin name and cause of each entry), its message
  and its status code. The struct has a slice field, so that its type is not
  comparable; it has the methods `Is` and `Unwrap` of `error.go`.
* `custom`: a value of any other error type: its identity, its text, whether
  its type is comparable, the targets that its own `Is` method accepts (none
  when it has no such method) and what its `Unwrap` method returns (`none` when
  it has no such method or the method returns nil). -/
inductive GoError where
  | errorString (addr : Nat) (s : String)
  | wrapError (addr : Nat) (msg : String) (err : GoError)
  | speedrailError (trail : List (String × Option GoError)) (outgoingMessage : String)
      (statusCode : Int)
  | custom (addr : Nat) (msg : String) (comparable : Bool) (accepts : List GoError)
      (inner : Option GoError)

mutual
/-- Equality of Go error values is decidable. -/
def GoError.decEq : (a b : GoError) → Decidable (a = b)
  | .errorString a1 s1, .errorString a2 s2 =>
    if h : a1 = a2 ∧ s1 = s2 then isTrue (by rw [h.1, h.2])
    else isFalse (by intro e; cases e; exact h ⟨rfl, rfl⟩)
  | .wrapError a1 m1 e1, .wrapError a2 m2 e2 =>
    match GoError.decEq e1 e2 with
    | isTrue he =>
      if h : a1 = a2 ∧ m1 = m2 then isTrue (by rw [h.1, h.2, he])
      else isFalse (by intro e; cases e; exact h ⟨rfl, rfl⟩)
    | isFalse he => isFalse (by intro e; cases e; exact he rfl)
  | .speedrailError t1 m1 s1, .speedrailError t2 m2 s2 =>
    match GoError.decEqTrail t1 t2 with
    | isTrue ht =>
      if h : m1 = m2 ∧ s1 = s2 then isTrue (by rw [h.1, h.2, ht])
      else isFalse (by intro e; cases e; exact h ⟨rfl, rfl⟩)
    | isFalse ht => isFalse (by intro e; cases e; exact ht rfl)
  | .custom a1 m1 c1 l1 i1, .custom a2 m2 c2 l2 i2 =>
    match GoError.decEqList l1 l2, GoError.decEqOption i1 i2 with
    | isTrue hl, isTrue hi =>
      if h : a1 = a2 ∧ m1 = m2 ∧ c1 = c2 then isTrue (by rw [h.1, h.2.1, h.2.2, hl, hi])
      else isFalse (by intro e; cases e; exact h ⟨rfl, rfl, rfl⟩)
    | isFalse hl, _ => isFalse (by intro e; cases e; exact hl rfl)
    | _, isFalse hi => isFalse (by intro e; cases e; exact hi rfl)
  | .errorString _ _, .wrapError _ _ _ => isFalse (by intro e; cases e)
  | .errorString _ _, .speedrailError _ _ _ => isFalse (by intro e; cases e)
  | .errorString _ _, .custom _ _ _ _ _ => isFalse (by intro e; cases e)
  | .wrapError _ _ _, .errorString _ _ => isFalse (by intro e; cases e)
  | .wrapError _ _ _, .speedrailError _ _ _ => isFalse (by intro e; cases e)
  | .wrapError _ _ _, .custom _ _ _ _ _ => isFalse (by intro e; cases e)
  | .speedrailError _ _ _, .errorString _ _ => isFalse (by intro e; cases e)
  | .speedrailError _ _ _, .wrapError _ _ _ => isFalse (by intro e; cases e)
  | .speedrailError _ _ _, .custom _ _ _ _ _ => isFalse (by intro e; cases e)
  | .custom _ _ _ _ _, .errorString _ _ => isFalse (by intro e; cases e)
  | .custom _ _ _ _ _, .wrapError _ _ _ => isFalse (by intro e; cases e)
  | .custom _ _ _ _ _, .speedrailError _ _ _ => isFalse (by intro e; cases e)
termination_by structural a => a
/-- Equality of error variables, nil included. -/
def GoError.decEqOption : (a b : Option GoError) → Decidable (a = b)
  | none, none => isTrue rfl
  | none, some _ => isFalse (by intro e; cases e)
  | some _, none => isFalse (by intro e; cases e)
  | some c1, some c2 =>
    match GoError.decEq c1 c2 with
    | isTrue hc => isTrue (by rw [hc])
    | isFalse hc => isFalse (by intro e; cases e; exact hc rfl)
termination_by structural a => a
/-- Equality of lists of error values. -/
def GoError.decEqList : (a b : List GoError) → Decidable (a = b)
  | [], [] => isTrue rfl
  | [], _ :: _ => isFalse (by intro e; cases e)
  | _ :: _, [] => isFalse (by intro e; cases e)
  | c1 :: r1, c2 :: r2 =>
    match GoError.decEq c1 c2, GoError.decEqList r1 r2 with
    | isTrue hc, isTrue hr => isTrue (by rw [hc, hr])
    | isFalse hc, _ => isFalse (by intro e; cases e; exact hc rfl)
    | _, isFalse hr => isFalse (by intro e; cases e; exact hr rfl)
termination_by structural a => a
/-- Equality of trails held in error values. -/
def GoError.decEqTrail : (a b : List (String × Option GoError)) → Decidable (a = b)
  | [], [] => isTrue rfl
  | [], _ :: _ => isFalse (by intro e; cases e)
  | _ :: _, [] => isFalse (by intro e; cases e)
  | (n1, c1) :: r1, (n2, c2) :: r2 =>
    match GoError.decEqOption c1 c2, GoError.decEqTrail r1 r2 with
    | isTrue hc, isTrue hr =>
      if h : n1 = n2 then isTrue (by rw [h, hr, hc])
      else isFalse (by intro e; cases e; exact h rfl)
    | isFalse hc, _ => isFalse (by intro e; cases e; exact hc rfl)
    | _, isFalse hr => isFalse (by intro e; cases e; exact hr rfl)
termination_by structural a => a
end

instance GoError.instDecidableEq : DecidableEq GoError := GoError.decEq

/-- Method `Error()` of a Go error value: its message text. -/
def GoError.Error : GoError → String
  | .errorString _ s => s
  | .wrapError _ msg _ => msg
  | .speedrailError _ outgoingMessage _ => outgoingMessage
  | .custom _ msg _ _ _ => msg

/-- Whether the type of the error value is comparable
(`reflectlite.TypeOf(target).Comparable()` in `errors.Is`). -/
def GoError.comparable : GoError → Bool
  | .errorString _ _ => true
  | .wrapError _ _ _ => true
  | .speedrailError _ _ _ => false
  | .custom _ _ comparable _ _ => comparable

mutual
/-- Loop of `errors.Is` on non-nil operands: compare when the type of the
target is comparable, then ask the `Is` method of the error when it has one,
then follow `Unwrap`. For a `defaultError` of this library the `Is` method
goes through its trail and `Unwrap` returns the cause of its first entry. -/
def errorsIs.is (target : GoError) : GoError → Bool
  | .errorString addr s =>
    target.comparable && decide (GoError.errorString addr s = target)
  | .wrapError addr msg err =>
    if target.comparable && decide (GoError.wrapError addr msg err = target) then true
    else errorsIs.is target err
  | .speedrailError trail _ _ =>
    if errorsIs.isTrail target trail then true
    else errorsIs.unwrapTrail target trail
  | .custom addr msg comparable accepts inner =>
    if target.comparable &&
        decide (GoError.custom addr msg comparable accepts inner = target) then true
    else if accepts.contains target then true
    else errorsIs.isOption target inner
termination_by structural e => e
/-- The call `errors.Is(err, target)` on a possibly nil `err` and a non-nil target. -/
def errorsIs.isOption (target : GoError) : Option GoError → Bool
  | none => false
  | some err => errorsIs.is target err
termination_by structural e => e
/-- Method `Is` of a `defaultError` held in an error variable: the first trail
entry whose cause matches ends the loop. -/
def errorsIs.isTrail (target : GoError) : List (String × Option GoError) → Bool
  | [] => false
  | (_, cause) :: rest =>
    if errorsIs.isOption target cause then true else errorsIs.isTrail target rest
termination_by structural e => e
/-- Method `Unwrap` of a `defaultError` held in an error variable, followed by
the rest of the loop of `errors.Is`: the cause of the first entry, nil for an
empty trail. -/
def errorsIs.unwrapTrail (target : GoError) : List (String × Option GoError) → Bool
  | [] => false
  | (_, cause) :: _ => errorsIs.isOption target cause
termination_by structural e => e
end

/-- Standard library `errors.Is(err, target)`. -/
def errorsIs (err target : Option GoError) : Bool :=
  match err, target with
  | some e, some t => errorsIs.is t e
  | _, _ => decide (err = target)

/-! Strings are sequences of characters and positions count characters. The
only separator the library looks for is "/", a single byte that is never part
of a longer character, so that cutting at its position is the same in bytes
and in characters. -/

/-- Standard library `strings.Contains(s, sep)` for a separator of one character. -/
def stringsContains (s : String) (sep : Char) : Bool :=
  s.data.contains sep

/-- Scan of `strings.LastIndex`: `i` is the position of the next character
and `found` the position of the last separator seen so far. -/
def stringsLastIndex.scan (sep : Char) : List Char → Int → Int → Int
  | [], _, found => found
  | c :: rest, i, found => stringsLastIndex.scan sep rest (i + 1) (if c = sep then i else found)

/-- Standard library `strings.LastIndex(s, sep)` for a separator of one
character: the position of its last occurrence, -1 when there is none. -/
def stringsLastIndex (s : String) (sep : Char) : Int :=
  stringsLastIndex.scan sep s.data 0 (-1)

/-- Slice expression `s[start:]`. -/
def sliceFrom (s : String) (start : Int) : String :=
  String.mk (s.data.drop start.toNat)

/-- The call `fmt.Sprintf("[%d]%s", n, label)`. -/
def sprintfKey (n : Nat) (label : String) : String :=
  "[" ++ toString n ++ "]" ++ label

/-- A Go `map[string]string`: at most one member for a key. -/
abbrev GoMap : Type := List (String × String)

/-- Assignment `m[key] = value`: replaces the member of that key or adds one. -/
def GoMap.set : GoMap → String → String → GoMap
  | [], key, value => [(key, value)]
  | (k, v) :: rest, key, value =>
    if k = key then (key, value) :: rest else (k, v) :: GoMap.set rest key value

/-- Index expression `m[key]`, `none` when the map has no such member. -/
def GoMap.get? (m : GoMap) (key : String) : Option String :=
  List.lookup key m

/-- Constant `http.StatusInternalServerError`. -/
def StatusInternalServerError : Int := 500

/-! ## error.go -/

/-- Struct `ErrorWithTrail`: the name of the function that built the error
and the underlying cause. -/
structure ErrorWithTrail where
  StrategyName : String
  Error : Option GoError
  deriving DecidableEq

/-- Type `Trail`, a slice of `ErrorWithTrail`. -/
abbrev Trail := List ErrorWithTrail

/-- Struct `defaultError`. -/
structure defaultError where
  trail : Trail
  outgoingMessage : String
  statusCode : Int
  deriving DecidableEq

/-- Loop of `Trail.MarshalJSON`, which fills the map `result`; `index` is the
position of the next entry. The call `err.Error.Error()` panics on a nil
cause: the run then has no result. -/
def Trail.MarshalJSON.loop : Nat → List ErrorWithTrail → GoMap → Option GoMap
  | _, [], result => some result
  | index, err :: rest, result =>
    if stringsContains err.StrategyName '/' &&
        decide (stringsLastIndex err.StrategyName '/' < (err.StrategyName.length : Int)) then
      match err.Error with
      | none => none
      | some cause =>
        Trail.MarshalJSON.loop (index + 1) rest
          (GoMap.set result
            (sprintfKey (index + 1)
              (sliceFrom err.StrategyName (stringsLastIndex err.StrategyName '/' + 1)))
            cause.Error)
    else
      match err.Error with
      | none => none
      | some cause =>
        Trail.MarshalJSON.loop (index + 1) rest
          (GoMap.set result (sprintfKey (index + 1) err.StrategyName) cause.Error)

/-- The map that `Trail.MarshalJSON` builds and hands to `json.Marshal`. -/
def Trail.MarshalJSON.result (t : Trail) : Option GoMap :=
  Trail.MarshalJSON.loop 0 t []

/-- Method `MarshalJSON` of `Trail`; `jsonMarshal` is the standard library
`json.Marshal` on a `map[string]string`, which cannot fail. -/
def Trail.MarshalJSON {Bytes : Type} (jsonMarshal : GoMap → Bytes) (t : Trail) : Option Bytes :=
  (Trail.MarshalJSON.result t).map jsonMarshal

/-- A `defaultError` held in a variable of the interface `error`, as when it
is given to `NewError` as a cause or to `errors.Is` as a target. -/
def defaultError.asError (e : defaultError) : GoError :=
  GoError.speedrailError (e.trail.map (fun entry => (entry.StrategyName, entry.Error)))
    e.outgoingMessage e.statusCode

/-- Method `Trail()`. -/
def defaultError.Trail (e : defaultError) : Trail := e.trail

/-- Method `StatusCode()`. -/
def defaultError.StatusCode (e : defaultError) : Int := e.statusCode

/-- Method `Error()`: the outgoing message. -/
def defaultError.Error (e : defaultError) : String := e.outgoingMessage

/-- Method `Merge`, as the value that it returns shows at its return: the
receiver is a copy, whose three fields are updated in turn and which is then
returned. `strings.Join` of a two-element slice is the first element, the
separator and the second element. The trail is here the list of its elements;
`Stored.defaultError.Merge` below keeps the backing array that `append`
writes into. -/
def defaultError.Merge (e : defaultError) (err : defaultError) : defaultError :=
  let e := { e with trail := e.trail ++ err.Trail }
  let e := if e.StatusCode < err.StatusCode then { e with statusCode := err.StatusCode } else e
  let e := { e with outgoingMessage := e.outgoingMessage ++ "; " ++ err.Error }
  e

/-- Loop of `Is`: the first trail entry whose cause matches ends it. -/
def defaultError.Is.loop (target : Option GoError) : List ErrorWithTrail → Bool
  | [] => false
  | err :: rest => if errorsIs err.Error target then true else defaultError.Is.loop target rest

/-- Method `Is(target)`. -/
def defaultError.Is (e : defaultError) (target : Option GoError) : Bool :=
  defaultError.Is.loop target e.trail

/-- What `NewError` obtains from the Go runtime: the name that
`runtime.FuncForPC` reports for the caller of `NewError` (`none` when
`runtime.Caller` fails or the function is unknown), and the identity of the
value that a call of `errors.New` allocates. -/
structure Runtime where
  callerName : Option String
  newAddr : Nat
  deriving DecidableEq

/-- Function `NewError`. -/
def NewError (rt : Runtime) (err : Option GoError) (statusCode : Int)
    (outgoingMessage : String) : defaultError :=
  let err : GoError :=
    match err with
    | none => GoError.errorString rt.newAddr outgoingMessage
    | some e => e
  let strategyName : String :=
    match rt.callerName with
    | some name => name
    | none => "unknown"
  { trail := [{ StrategyName := strategyName, Error := some err }]
    statusCode := statusCode
    outgoingMessage := outgoingMessage }

/-! ## condition.go -/

/-- Type `Condition`: a predicate on the model. -/
abbrev Condition (M : Type) : Type := M → Bool

/-- Loop of `And`: the first condition that is false ends it. -/
def And.loop {M : Type} (model : M) : List (Condition M) → Bool
  | [] => true
  | condition :: rest => if !condition model then false else And.loop model rest

/-- Function `And`. -/
def And {M : Type} (conditions : List (Condition M)) : Condition M :=
  fun model => And.loop model conditions

/-- Loop of `Or`: the first condition that is true ends it. -/
def Or.loop {M : Type} (model : M) : List (Condition M) → Bool
  | [] => false
  | condition :: rest => if condition model then true else Or.loop model rest

/-- Function `Or`. -/
def Or {M : Type} (conditions : List (Condition M)) : Condition M :=
  fun model => Or.loop model conditions

/-- Function `Not`. -/
def Not {M : Type} (condition : Condition M) : Condition M :=
  fun model => !condition model

/-! ## strategy.go -/

/-- Type `Strategy`: from context, container and model to context, model and
error, each of the two interface values possibly nil. -/
abbrev Strategy (Ctx C M : Type) : Type :=
  Option Ctx → C → M → Option Ctx × M × Option defaultError

/-- Function `If`. -/
def If {Ctx C M : Type} (condition : Condition M) (onTrue : Strategy Ctx C M) :
    Strategy Ctx C M :=
  fun ctx container model =>
    if condition model then onTrue ctx container model
    else (ctx, model, none)

/-- Function `IfElse`. -/
def IfElse {Ctx C M : Type} (condition : Condition M) (onTrue onFalse : Strategy Ctx C M) :
    Strategy Ctx C M :=
  fun ctx container model =>
    if condition model then onTrue ctx container model
    else onFalse ctx container model

/-- Loop of the strategy `Merge`, with the accumulated `resultErr`; errors are
the values that they show when they are returned (`Stored.Merge.loop` below
keeps the backing arrays of their trails). -/
def Merge.loop {Ctx C M : Type} (container : C) :
    List (Strategy Ctx C M) → Option Ctx → M → Option defaultError →
      Option Ctx × M × Option defaultError
  | [], ctx, model, resultErr => (ctx, model, resultErr)
  | strategy :: rest, ctx, model, resultErr =>
    match strategy ctx container model with
    | (ctx, model, none) => Merge.loop container rest ctx model resultErr
    | (ctx, model, some err) =>
      match resultErr with
      | none => Merge.loop container rest ctx model (some err)
      | some acc => Merge.loop container rest ctx model (some (acc.Merge err))

/-- Function `Merge`: runs every strategy and merges the errors. -/
def Merge {Ctx C M : Type} (strategies : List (Strategy Ctx C M)) : Strategy Ctx C M :=
  fun ctx container model => Merge.loop container strategies ctx model none

/-- Loop of the strategy `Group`: the first non-nil error ends it. -/
def Group.loop {Ctx C M : Type} (container : C) :
    List (Strategy Ctx C M) → Option Ctx → M → Option Ctx × M × Option defaultError
  | [], ctx, model => (ctx, model, none)
  | strategy :: rest, ctx, model =>
    match strategy ctx container model with
    | (ctx, model, some err) => (ctx, model, some err)
    | (ctx, model, none) => Group.loop container rest ctx model

/-- Function `Group`. -/
def Group {Ctx C M : Type} (strategies : List (Strategy Ctx C M)) : Strategy Ctx C M :=
  fun ctx container model => Group.loop container strategies ctx model

/-- Function `ThrowError`. -/
def ThrowError {Ctx C M : Type} (err : Option defaultError) : Strategy Ctx C M :=
  fun ctx _ model => (ctx, model, err)

/-! ## speedrail.go -/

/-- Type `Speedrail`, a slice of strategies that may be nil. -/
abbrev Speedrail (Ctx C M : Type) : Type := Option (List (Strategy Ctx C M))

/-- Go passes nil for a variadic parameter that receives no argument, and a
new slice holding the arguments otherwise. -/
def variadic {α : Type} : List α → Option (List α)
  | [] => none
  | a :: as => some (a :: as)

/-- Function `Plan`: returns its variadic parameter. -/
def Plan {Ctx C M : Type} (strategies : Option (List (Strategy Ctx C M))) :
    Speedrail Ctx C M :=
  strategies

/-- Variable `ErrNoStrategy`. -/
def ErrNoStrategy : GoError := GoError.errorString 0 "no strategies to execute"

/-- Variable `ErrNoContextReturned`. -/
def ErrNoContextReturned : GoError := GoError.errorString 1 "no context returned by strategy"

/-- Loop of `Execute` over the strategies that are left. -/
def Speedrail.Execute.loop {Ctx C M : Type} (rt : Runtime) (container : C) :
    List (Strategy Ctx C M) → Option Ctx → M → Option Ctx × M × Option defaultError
  | [], ctx, model => (ctx, model, none)
  | strategy :: rest, ctx, model =>
    match strategy ctx container model with
    | (none, model, _) =>
      (none, model, some (NewError rt (some ErrNoContextReturned) StatusInternalServerError
        "no context returned by strategy"))
    | (some ctx, model, some err) => (some ctx, model, some err)
    | (some ctx, model, none) => Speedrail.Execute.loop rt container rest (some ctx) model

/-- Method `Execute`. -/
def Speedrail.Execute {Ctx C M : Type} (rt : Runtime) (s : Speedrail Ctx C M)
    (ctx : Option Ctx) (container : C) (model : M) : Option Ctx × M × Option defaultError :=
  match s with
  | none =>
    (ctx, model, some (NewError rt (some ErrNoStrategy) StatusInternalServerError
      "no strategies to execute"))
  | some strategies => Speedrail.Execute.loop rt container strategies ctx model

/-! ## error.go and strategy.go, with the storage of trails

The definitions above give the value that an error shows at the moment it is
returned. In Go the field `trail` is a slice: a pointer to a backing array, a
length and a capacity; `append` writes into the backing array of its first
argument when the capacity allows, and into a new array otherwise. The
definitions of this section keep the backing arrays, so that it shows which
errors share one. -/

/-- Header of a slice of `ErrorWithTrail`: the number of its backing array,
its length and its capacity. Every slice that the library builds starts at
the first cell of its array. -/
structure TrailSlice where
  array : Nat
  len : Nat
  cap : Nat
  deriving DecidableEq

/-- The backing arrays allocated so far, in the order of their allocation: the
array of number `n` is at position `n` and has as many cells as its capacity. -/
abbrev Arrays : Type := List (List ErrorWithTrail)

/-- Zero value of `ErrorWithTrail`, which fills the cells that are not yet
written. -/
def ErrorWithTrail.zero : ErrorWithTrail := { StrategyName := "", Error := none }

/-- The elements that a slice shows: the first `len` cells of its array. -/
def TrailSlice.read (mem : Arrays) (s : TrailSlice) : List ErrorWithTrail :=
  (mem.getD s.array []).take s.len

/-- Built-in `append(s, xs...)`. When the capacity allows, the elements are
written into the array of `s` after its length and the result has the same
array; otherwise a new array of the capacity `grow newLen oldCap`, chosen by
the runtime, receives the elements of `s` and then `xs`. -/
def TrailSlice.append (grow : Nat → Nat → Nat) (mem : Arrays) (s : TrailSlice)
    (xs : List ErrorWithTrail) : TrailSlice × Arrays :=
  if s.len + xs.length ≤ s.cap then
    ({ array := s.array, len := s.len + xs.length, cap := s.cap },
      mem.set s.array
        ((mem.getD s.array []).take s.len ++ xs ++
          (mem.getD s.array []).drop (s.len + xs.length)))
  else
    ({ array := mem.length, len := s.len + xs.length, cap := grow (s.len + xs.length) s.cap },
      mem ++ [TrailSlice.read mem s ++ xs ++
        List.replicate (grow (s.len + xs.length) s.cap - (s.len + xs.length))
          ErrorWithTrail.zero])

/-- Capacity that the Go runtime (`runtime.growslice`) chooses for a slice
whose old capacity is below 256: the new length when it is more than twice the
old capacity, twice the old capacity otherwise. The rounding to an allocation
size that follows leaves the capacities 1, 2 and 4 of these 32-byte elements
as they are. -/
def growslice (newLen oldCap : Nat) : Nat :=
  if 2 * oldCap < newLen then newLen else 2 * oldCap

/-- Struct `defaultError` as it is stored: the header of the slice `trail`,
the message and the status code. -/
structure Stored.defaultError where
  trail : TrailSlice
  outgoingMessage : String
  statusCode : Int
  deriving DecidableEq

/-- What a stored error shows in a memory through `Trail()`, `Error()` and
`StatusCode()`. -/
def Stored.defaultError.value (mem : Arrays) (e : Stored.defaultError) : speedrail.defaultError :=
  { trail := TrailSlice.read mem e.trail
    outgoingMessage := e.outgoingMessage
    statusCode := e.statusCode }

/-- Function `NewError`: the slice literal of one entry is a new array of
length 1 and capacity 1. -/
def Stored.NewError (rt : Runtime) (mem : Arrays) (err : Option GoError) (statusCode : Int)
    (outgoingMessage : String) : Stored.defaultError × Arrays :=
  let err : GoError :=
    match err with
    | none => GoError.errorString rt.newAddr outgoingMessage
    | some e => e
  let strategyName : String :=
    match rt.callerName with
    | some name => name
    | none => "unknown"
  ({ trail := { array := mem.length, len := 1, cap := 1 }
     statusCode := statusCode
     outgoingMessage := outgoingMessage },
    mem ++ [[{ StrategyName := strategyName, Error := some err }]])

/-- Method `Merge` of `defaultError`: `e.trail = append(e.trail, err.Trail()...)`
on the copy `e` of the receiver, then the status code and the message. -/
def Stored.defaultError.Merge (grow : Nat → Nat → Nat) (mem : Arrays)
    (e err : Stored.defaultError) : Stored.defaultError × Arrays :=
  let appended := TrailSlice.append grow mem e.trail (TrailSlice.read mem err.trail)
  let e := { e with trail := appended.1 }
  let e := if e.statusCode < err.statusCode then { e with statusCode := err.statusCode } else e
  let e := { e with outgoingMessage := e.outgoingMessage ++ "; " ++ err.outgoingMessage }
  (e, appended.2)

/-- Type `Strategy`, the memory of backing arrays being passed along. -/
abbrev Stored.Strategy (Ctx C M : Type) : Type :=
  Arrays → Option Ctx → C → M → Arrays × Option Ctx × M × Option Stored.defaultError

/-- Function `ThrowError`. -/
def Stored.ThrowError {Ctx C M : Type} (err : Option Stored.defaultError) :
    Stored.Strategy Ctx C M :=
  fun mem ctx _ model => (mem, ctx, model, err)

/-- Loop of the strategy `Merge`, with the accumulated `resultErr`. -/
def Stored.Merge.loop {Ctx C M : Type} (grow : Nat → Nat → Nat) (container : C) :
    List (Stored.Strategy Ctx C M) → Arrays → Option Ctx → M → Option Stored.defaultError →
      Arrays × Option Ctx × M × Option Stored.defaultError
  | [], mem, ctx, model, resultErr => (mem, ctx, model, resultErr)
  | strategy :: rest, mem, ctx, model, resultErr =>
    match strategy mem ctx container model with
    | (mem, ctx, model, none) => Stored.Merge.loop grow container rest mem ctx model resultErr
    | (mem, ctx, model, some err) =>
      match resultErr with
      | none => Stored.Merge.loop grow container rest mem ctx model (some err)
      | some acc =>
        Stored.Merge.loop grow container rest (Stored.defaultError.Merge grow mem acc err).2
          ctx model (some (Stored.defaultError.Merge grow mem acc err).1)

/-- Function `Merge`. -/
def Stored.Merge {Ctx C M : Type} (grow : Nat → Nat → Nat)
    (strategies : List (Stored.Strategy Ctx C M)) : Stored.Strategy Ctx C M :=
  fun mem ctx container model => Stored.Merge.loop grow container strategies mem ctx model none

/-! ## Vocabulary of the statements -/

/-- The error that a strategy returned, as it shows in the memory that the
strategy left. -/
def Stored.shown {Ctx M : Type}
    (r : Arrays × Option Ctx × M × Option Stored.defaultError) : Option speedrail.defaultError :=
  r.2.2.2.map (Stored.defaultError.value r.1)

/-- What every strategy of the list returns when the list is run in order,
each strategy on the context and the model that the one before it returned,
whatever error that one returned. -/
def returnsOf {Ctx C M : Type} (container : C) :
    List (Strategy Ctx C M) → Option Ctx → M → List (Option Ctx × M × Option defaultError)
  | [], _, _ => []
  | strategy :: rest, ctx, model =>
    let r := strategy ctx container model
    r :: returnsOf container rest r.1 r.2.1

/-- A strategy returned a non-nil context and a nil error. -/
def passed {Ctx M : Type} (r : Option Ctx × M × Option defaultError) : Bool :=
  r.1.isSome && r.2.2.isNone

/-- The label that `Trail.MarshalJSON` puts after the bracketed index for an
origin name. -/
def labelOf (name : String) : String :=
  if stringsContains name '/' && decide (stringsLastIndex name '/' < (name.length : Int)) then
    sliceFrom name (stringsLastIndex name '/' + 1)
  else name

/-- The key that `Trail.MarshalJSON` generates for the entry at the 0-based
position `index`. -/
def keyOf (index : Nat) (entry : ErrorWithTrail) : String :=
  sprintfKey (index + 1) (labelOf entry.StrategyName)

/-- The members that the entries of a trail give, the first entry being at
position `index`: for each entry its key and the message text of its cause
(the empty text stands in for a cause that is nil, on which the run panics). -/
def membersFrom (index : Nat) : List ErrorWithTrail → GoMap
  | [] => []
  | entry :: rest =>
    (keyOf index entry, (entry.Error.map GoError.Error).getD "") :: membersFrom (index + 1) rest

/-- A strategy returned a nil error. -/
def succeeded {Ctx M : Type} (r : Option Ctx × M × Option defaultError) : Bool :=
  r.2.2.isNone

/-- The returns of the strategies that a fail-fast run invokes: those of the
list up to and including the first one with a non-nil error. -/
def untilFailure {Ctx M : Type} :
    List (Option Ctx × M × Option defaultError) → List (Option Ctx × M × Option defaultError)
  | [] => []
  | r :: rest => if succeeded r then r :: untilFailure rest else [r]

/-- Context and model that come out of running the whole list in order: those
returned by the last strategy, or the ones given when the list is empty. -/
def finalState {Ctx C M : Type} (container : C) (strategies : List (Strategy Ctx C M))
    (ctx : Option Ctx) (model : M) : Option Ctx × M :=
  match (returnsOf container strategies ctx model).getLast? with
  | none => (ctx, model)
  | some r => (r.1, r.2.1)

/-- What `Execute` does with the value a strategy returned, `next` being the
run of the strategies after it. -/
def Speedrail.Execute.after {Ctx M : Type} (rt : Runtime)
    (next : Option Ctx → M → Option Ctx × M × Option defaultError)
    (r : Option Ctx × M × Option defaultError) : Option Ctx × M × Option defaultError :=
  match r with
  | (none, model, _) =>
    (none, model, some (NewError rt (some ErrNoContextReturned) StatusInternalServerError
      "no context returned by strategy"))
  | (some ctx, model, some err) => (some ctx, model, some err)
  | (some ctx, model, none) => next (some ctx) model

/-- The chained merge `first.Merge(e2)...Merge(en)`, `rest` being `e2, ..., en`. -/
def mergeChain (first : defaultError) (rest : List defaultError) : defaultError :=
  rest.foldl defaultError.Merge first

/-- One call of `NewError`: the runtime it runs in and its three arguments. -/
structure NewErrorCall where
  rt : Runtime
  err : Option GoError
  statusCode : Int
  outgoingMessage : String
  deriving DecidableEq

/-- The error that the call of `NewError` returns. -/
def NewErrorCall.result (call : NewErrorCall) : defaultError :=
  NewError call.rt call.err call.statusCode call.outgoingMessage

/-- The strategy, made to write the number `i` at the end of a list of calls
that is kept next to the model, each time it is invoked. -/
def recording {Ctx C M : Type} (i : Nat) (strategy : Strategy Ctx C M) :
    Strategy Ctx C (M × List Nat) :=
  fun ctx container model =>
    let r := strategy ctx container model.1
    (r.1, (r.2.1, model.2 ++ [i]), r.2.2)

/-- Every strategy of the list made to record its position, counted from `i`. -/
def recordingFrom {Ctx C M : Type} (i : Nat) :
    List (Strategy Ctx C M) → List (Strategy Ctx C (M × List Nat))
  | [] => []
  | strategy :: rest => recording i strategy :: recordingFrom (i + 1) rest

/-! ## Examples the statements are evaluated on -/

/-- A runtime in which `NewError` learns the name of its caller. -/
def exRuntime : Runtime :=
  { callerName := some "github.com/Kansuler/speedrail.Speedrail.Execute", newAddr := 7 }

/-- A step error as a strategy builds it: status 400, message "error 1". -/
def exError400 : defaultError :=
  NewError { callerName := some "main.validate", newAddr := 8 }
    (some (GoError.errorString 2 "error 1")) 400 "error 1"

/-- A strategy that succeeds and adds 1 to the model. -/
def exStep : Strategy Unit Unit Nat := fun ctx _ model => (ctx, model + 1, none)

/-- A strategy that adds 10 to the model and fails with `exError400`. -/
def exFail400 : Strategy Unit Unit Nat := fun ctx _ model => (ctx, model + 10, some exError400)

/-- A strategy that adds 100 to the model and returns a nil context together
with the error `exError400`. -/
def exDropContext : Strategy Unit Unit Nat := fun _ _ model => (none, model + 100, some exError400)

/-- A condition on a numeric model: the model is at least 5. -/
def exAtLeast5 : Condition Nat := fun model => decide (5 ≤ model)

/-- A trail of two entries, the first with a path in its origin name. -/
def exTrail : Trail :=
  [ { StrategyName := "github.com/Kansuler/speedrail_test.errorTestFunction1"
      Error := some (GoError.errorString 11 "error 1") },
    { StrategyName := "main"
      Error := some (GoError.errorString 12 "error 2") } ]

/-- The runtime of the calls of `NewError` in the examples with storage. -/
def exCaller : Runtime := { callerName := some "main.check", newAddr := 50 }

/-- The trail entry of the error of number `n` in the examples with storage. -/
def exEntry (n : Nat) : ErrorWithTrail :=
  { StrategyName := "main.check", Error := some (GoError.errorString (40 + n) "cause") }

/-- `e0 := NewError(cause0, 400, "m0")` in an empty memory. -/
def exStored0 : Stored.defaultError × Arrays :=
  Stored.NewError exCaller [] (some (GoError.errorString 40 "cause")) 400 "m0"

/-- `e1 := NewError(cause1, 400, "m1")`. -/
def exStored1 : Stored.defaultError × Arrays :=
  Stored.NewError exCaller exStored0.2 (some (GoError.errorString 41 "cause")) 400 "m1"

/-- `e2 := NewError(cause2, 400, "m2")`. -/
def exStored2 : Stored.defaultError × Arrays :=
  Stored.NewError exCaller exStored1.2 (some (GoError.errorString 42 "cause")) 400 "m2"

/-- `e3 := NewError(cause3, 400, "m3")`. -/
def exStored3 : Stored.defaultError × Arrays :=
  Stored.NewError exCaller exStored2.2 (some (GoError.errorString 43 "cause")) 400 "m3"

/-- `e4 := NewError(cause4, 400, "m4")`. -/
def exStored4 : Stored.defaultError × Arrays :=
  Stored.NewError exCaller exStored3.2 (some (GoError.errorString 44 "cause")) 400 "m4"

/-- `e0.Merge(e1)`. -/
def exStored01 : Stored.defaultError × Arrays :=
  Stored.defaultError.Merge growslice exStored4.2 exStored0.1 exStored1.1

/-- `abc := e0.Merge(e1).Merge(e2)`: a trail of length 3 and capacity 4. -/
def exStoredABC : Stored.defaultError × Arrays :=
  Stored.defaultError.Merge growslice exStored01.2 exStored01.1 exStored2.1

/-- `r3 := abc.Merge(e3)`. -/
def exStoredR3 : Stored.defaultError × Arrays :=
  Stored.defaultError.Merge growslice exStoredABC.2 exStoredABC.1 exStored3.1

/-- `r4 := abc.Merge(e4)`, called after `r3 := abc.Merge(e3)`. -/
def exStoredR4 : Stored.defaultError × Arrays :=
  Stored.defaultError.Merge growslice exStoredR3.2 exStoredABC.1 exStored4.1

/-- The strategy `Merge(ThrowError(abc), ThrowError(e3))`. -/
def exMerge3 : Stored.Strategy Unit Unit Nat :=
  Stored.Merge growslice
    [Stored.ThrowError (some exStoredABC.1), Stored.ThrowError (some exStored3.1)]

/-- The strategy `Merge(ThrowError(abc), ThrowError(e4))`. -/
def exMerge4 : Stored.Strategy Unit Unit Nat :=
  Stored.Merge growslice
    [Stored.ThrowError (some exStoredABC.1), Stored.ThrowError (some exStored4.1)]

/-- The strategy `Merge(Merge(ThrowError(abc), ThrowError(e3)),
Merge(ThrowError(abc), ThrowError(e4)))`. -/
def exNestedMerge : Stored.Strategy Unit Unit Nat :=
  Stored.Merge growslice [exMerge3, exMerge4]

/-- A trail of one entry that has an origin name and a nil cause. -/
def exTrailNoCause : Trail :=
  [ { StrategyName := "main.run", Error := none } ]

/-- First call of `NewError` in the test of `Merge` of `error_test.go`. -/
def exCall1 : NewErrorCall :=
  { rt := { callerName := some "speedrail_test.errorTestFunction1", newAddr := 20 }
    err := some (GoError.errorString 11 "error 1")
    statusCode := 500
    outgoingMessage := "error 1 message" }

/-- Second and third call of `NewError` in the test of `Merge` of
`error_test.go`. -/
def exCall2 : NewErrorCall :=
  { rt := { callerName := some "speedrail_test.errorTestFunction2", newAddr := 21 }
    err := some (GoError.errorString 12 "error 2")
    statusCode := 500
    outgoingMessage := "error 2 message" }

/-! ## Lemmas on `defaultError.Merge` -/

theorem Merge_trail (a b : defaultError) : (a.Merge b).trail = a.trail ++ b.trail := by
  unfold defaultError.Merge
  dsimp only [defaultError.Trail, defaultError.StatusCode]
  split <;> rfl

theorem Merge_message (a b : defaultError) :
    (a.Merge b).outgoingMessage = a.outgoingMessage ++ "; " ++ b.outgoingMessage := by
  unfold defaultError.Merge
  dsimp only [defaultError.Trail, defaultError.StatusCode, defaultError.Error]
  split <;> rfl

theorem Merge_status (a b : defaultError) :
    (a.Merge b).statusCode = max a.statusCode b.statusCode := by
  unfold defaultError.Merge
  dsimp only [defaultError.Trail, defaultError.StatusCode]
  split
  · next h => exact (max_eq_right (le_of_lt h)).symm
  · next h => exact (max_eq_left (not_lt.1 h)).symm

theorem mergeChain_cons (first e : defaultError) (rest : List defaultError) :
    mergeChain first (e :: rest) = mergeChain (first.Merge e) rest := rfl

theorem mergeChain_trail (first : defaultError) (rest : List defaultError) :
    (mergeChain first rest).trail = first.trail ++ rest.flatMap (fun e => e.trail) := by
  induction rest generalizing first with
  | nil => simp [mergeChain]
  | cons e rest ih => rw [mergeChain_cons, ih, Merge_trail]; simp

theorem mergeChain_message (first : defaultError) (rest : List defaultError) :
    (mergeChain first rest).outgoingMessage =
      String.intercalate "; " (first.outgoingMessage :: rest.map (fun e => e.outgoingMessage)) := by
  induction rest generalizing first with
  | nil => simp [mergeChain, String.intercalate, String.intercalate.go]
  | cons e rest ih =>
    rw [mergeChain_cons, ih, Merge_message]
    simp [String.intercalate, String.intercalate.go]

theorem mergeChain_status_ge (first : defaultError) (rest : List defaultError) :
    ∀ e ∈ first :: rest, e.statusCode ≤ (mergeChain first rest).statusCode := by
  induction rest generalizing first with
  | nil => intro e he; simp at he; subst he; exact le_refl _
  | cons x rest ih =>
    intro e he
    rw [mergeChain_cons]
    have hm := Merge_status first x
    have h0 := ih (first.Merge x) (first.Merge x) (List.mem_cons_self _ _)
    rcases List.mem_cons.1 he with h | h
    · subst h
      exact le_trans (by rw [hm]; exact le_max_left _ _) h0
    · rcases List.mem_cons.1 h with h | h
      · subst h
        exact le_trans (by rw [hm]; exact le_max_right _ _) h0
      · exact ih (first.Merge x) e (List.mem_cons_of_mem _ h)

theorem mergeChain_status_mem (first : defaultError) (rest : List defaultError) :
    ∃ e ∈ first :: rest, e.statusCode = (mergeChain first rest).statusCode := by
  induction rest generalizing first with
  | nil => exact ⟨first, List.mem_cons_self _ _, rfl⟩
  | cons x rest ih =>
    rw [mergeChain_cons]
    obtain ⟨e, he, heq⟩ := ih (first.Merge x)
    rcases List.mem_cons.1 he with h | h
    · subst h
      rcases max_cases first.statusCode x.statusCode with ⟨hmax, _⟩ | ⟨hmax, _⟩
      · exact ⟨first, List.mem_cons_self _ _, by rw [← heq, Merge_status, hmax]⟩
      · exact ⟨x, List.mem_cons_of_mem _ (List.mem_cons_self _ _),
          by rw [← heq, Merge_status, hmax]⟩
    · exact ⟨e, List.mem_cons_of_mem _ (List.mem_cons_of_mem _ h), heq⟩

theorem errorsIs_isOption (t : GoError) (cause : Option GoError) :
    errorsIs.isOption t cause = errorsIs cause (some t) := by
  cases cause with
  | none => simp [errorsIs.isOption, errorsIs]
  | some c => simp [errorsIs.isOption, errorsIs]

theorem errorsIs_isTrail_map (t : GoError) (trail : List ErrorWithTrail) :
    errorsIs.isTrail t (trail.map (fun entry => (entry.StrategyName, entry.Error))) =
      defaultError.Is.loop (some t) trail := by
  induction trail with
  | nil => simp [errorsIs.isTrail, defaultError.Is.loop]
  | cons entry rest ih =>
    simp only [List.map_cons, errorsIs.isTrail, defaultError.Is.loop, ih, errorsIs_isOption]

/-- The call `errors.Is` on a `defaultError` held in an error variable comes
down to its method `Is`. -/
theorem errorsIs_asError (d : defaultError) (t : GoError) :
    errorsIs (some d.asError) (some t) = d.Is (some t) := by
  simp only [errorsIs, defaultError.asError, errorsIs.is, defaultError.Is, errorsIs_isTrail_map]
  cases htrail : d.trail with
  | nil => simp [defaultError.Is.loop, errorsIs.unwrapTrail]
  | cons entry rest =>
    simp only [List.map_cons, errorsIs.unwrapTrail, defaultError.Is.loop, errorsIs_isOption]
    cases errorsIs entry.Error (some t) <;> simp

theorem Execute_loop_cons {Ctx C M : Type} (rt : Runtime) (container : C)
    (strategy : Strategy Ctx C M) (rest : List (Strategy Ctx C M)) (ctx : Option Ctx)
    (model : M) :
    Speedrail.Execute.loop rt container (strategy :: rest) ctx model =
      Speedrail.Execute.after rt (Speedrail.Execute.loop rt container rest)
        (strategy ctx container model) := by
  rw [Speedrail.Execute.loop]
  rcases strategy ctx container model with ⟨_ | ctx1, model1, _ | err⟩ <;> rfl

theorem passed_iff {Ctx M : Type} (r : Option Ctx × M × Option defaultError) :
    passed r = true ↔ ∃ ctx1 model1, r = (some ctx1, model1, none) := by
  rcases r with ⟨_ | ctx1, model1, _ | err⟩ <;> simp [passed]

/-- The loop, at the strategy in position `k` that it reaches. -/
theorem Execute_loop_at {Ctx C M : Type} (rt : Runtime) (container : C) :
    ∀ (strategies : List (Strategy Ctx C M)) (ctx : Option Ctx) (model : M) (k : Nat)
      (r : Option Ctx × M × Option defaultError),
      (returnsOf container strategies ctx model)[k]? = some r →
      (∀ q ∈ (returnsOf container strategies ctx model).take k, passed q = true) →
      ∀ post : List (Strategy Ctx C M),
        Speedrail.Execute.loop rt container (strategies.take (k + 1) ++ post) ctx model =
          Speedrail.Execute.after rt (Speedrail.Execute.loop rt container post) r := by
  intro strategies
  induction strategies with
  | nil => intro ctx model k r h; simp [returnsOf] at h
  | cons s rest ih =>
    intro ctx model k r h hpre post
    cases k with
    | zero =>
      simp only [returnsOf, List.getElem?_cons_zero, Option.some.injEq] at h
      subst h
      simp only [Nat.zero_add, List.take_succ_cons, List.take_zero, List.cons_append,
        List.nil_append]
      exact Execute_loop_cons rt container s post ctx model
    | succ k =>
      simp only [returnsOf, List.getElem?_cons_succ] at h
      simp only [returnsOf, List.take_succ_cons, List.mem_cons, forall_eq_or_imp] at hpre
      obtain ⟨h0, hrest⟩ := hpre
      obtain ⟨ctx1, model1, h1⟩ := (passed_iff _).1 h0
      rw [h1] at h hrest
      have := ih (some ctx1) model1 k r h hrest post
      simp only [List.take_succ_cons, List.cons_append]
      rw [Execute_loop_cons, h1]
      exact this

theorem finalState_cons {Ctx C M : Type} (container : C) (strategy : Strategy Ctx C M)
    (rest : List (Strategy Ctx C M)) (ctx : Option Ctx) (model : M) :
    finalState container (strategy :: rest) ctx model =
      finalState container rest (strategy ctx container model).1
        (strategy ctx container model).2.1 := by
  simp only [finalState, returnsOf, List.getLast?_cons]
  cases (returnsOf container rest (strategy ctx container model).1
    (strategy ctx container model).2.1).getLast? <;> rfl

/-- The loop, when every strategy passes. -/
theorem Execute_loop_all_passed {Ctx C M : Type} (rt : Runtime) (container : C) :
    ∀ (strategies : List (Strategy Ctx C M)) (ctx : Option Ctx) (model : M),
      (∀ q ∈ returnsOf container strategies ctx model, passed q = true) →
      Speedrail.Execute.loop rt container strategies ctx model =
        ((finalState container strategies ctx model).1,
          (finalState container strategies ctx model).2, none) := by
  intro strategies
  induction strategies with
  | nil => intro ctx model _; rfl
  | cons s rest ih =>
    intro ctx model h
    simp only [returnsOf, List.mem_cons, forall_eq_or_imp] at h
    obtain ⟨h0, hrest⟩ := h
    obtain ⟨ctx1, model1, h1⟩ := (passed_iff _).1 h0
    rw [finalState_cons, Execute_loop_cons, h1]
    rw [h1] at hrest
    exact ih (some ctx1) model1 hrest

theorem recording_apply {Ctx C M : Type} (i : Nat) (strategy : Strategy Ctx C M)
    (ctx : Option Ctx) (container : C) (model : M) (calls : List Nat) :
    recording i strategy ctx container (model, calls) =
      ((strategy ctx container model).1,
        ((strategy ctx container model).2.1, calls ++ [i]),
        (strategy ctx container model).2.2) := rfl

/-- The loop on recording strategies, when it halts at position `k`. -/
theorem Execute_loop_recording_halt {Ctx C M : Type} (rt : Runtime) (container : C) :
    ∀ (strategies : List (Strategy Ctx C M)) (i : Nat) (ctx : Option Ctx) (model : M)
      (calls : List Nat) (k : Nat) (r : Option Ctx × M × Option defaultError),
      (returnsOf container strategies ctx model)[k]? = some r →
      (∀ q ∈ (returnsOf container strategies ctx model).take k, passed q = true) →
      passed r = false →
      Speedrail.Execute.loop rt container (recordingFrom i strategies) ctx (model, calls) =
        ((Speedrail.Execute.loop rt container strategies ctx model).1,
          ((Speedrail.Execute.loop rt container strategies ctx model).2.1,
            calls ++ List.range' i (k + 1)),
          (Speedrail.Execute.loop rt container strategies ctx model).2.2) := by
  intro strategies
  induction strategies with
  | nil => intro i ctx model calls k r h; simp [returnsOf] at h
  | cons s rest ih =>
    intro i ctx model calls k r h hpre hr
    rw [recordingFrom, Execute_loop_cons, Execute_loop_cons, recording_apply]
    cases k with
    | zero =>
      simp only [returnsOf, List.getElem?_cons_zero, Option.some.injEq] at h
      rw [h]
      rcases r with ⟨_ | ctx1, model1, _ | err⟩
      · simp [Speedrail.Execute.after]
      · simp [Speedrail.Execute.after]
      · simp [passed] at hr
      · simp [Speedrail.Execute.after]
    | succ k =>
      simp only [returnsOf, List.getElem?_cons_succ] at h
      simp only [returnsOf, List.take_succ_cons, List.mem_cons, forall_eq_or_imp] at hpre
      obtain ⟨h0, hrest⟩ := hpre
      obtain ⟨ctx1, model1, h1⟩ := (passed_iff _).1 h0
      rw [h1] at h hrest
      rw [h1]
      simp only [Speedrail.Execute.after]
      rw [ih (i + 1) (some ctx1) model1 (calls ++ [i]) k r h hrest hr]
      simp [List.range'_succ]

/-- The loop on recording strategies, when every strategy passes. -/
theorem Execute_loop_recording_all {Ctx C M : Type} (rt : Runtime) (container : C) :
    ∀ (strategies : List (Strategy Ctx C M)) (i : Nat) (ctx : Option Ctx) (model : M)
      (calls : List Nat),
      (∀ q ∈ returnsOf container strategies ctx model, passed q = true) →
      Speedrail.Execute.loop rt container (recordingFrom i strategies) ctx (model, calls) =
        ((Speedrail.Execute.loop rt container strategies ctx model).1,
          ((Speedrail.Execute.loop rt container strategies ctx model).2.1,
            calls ++ List.range' i strategies.length),
          (Speedrail.Execute.loop rt container strategies ctx model).2.2) := by
  intro strategies
  induction strategies with
  | nil => intro i ctx model calls _; simp [recordingFrom, Speedrail.Execute.loop]
  | cons s rest ih =>
    intro i ctx model calls h
    simp only [returnsOf, List.mem_cons, forall_eq_or_imp] at h
    obtain ⟨h0, hrest⟩ := h
    obtain ⟨ctx1, model1, h1⟩ := (passed_iff _).1 h0
    rw [h1] at hrest
    rw [recordingFrom, Execute_loop_cons, Execute_loop_cons, recording_apply, h1]
    simp only [Speedrail.Execute.after]
    rw [ih (i + 1) (some ctx1) model1 (calls ++ [i]) hrest]
    simp [List.range'_succ]

/-! ## Execute -/

/-- C1. `Execute` on a non-nil plan is fail-fast. If the strategies before
position `k` each return a non-nil context and a nil error, and the strategy at
position `k` returns a non-nil context with a non-nil error, then `Execute`
returns exactly what that strategy returned (its context, its model, its error
unwrapped); so does every plan that agrees with this one up to position `k`
(no later strategy has a say); and when the strategies record their position
at each invocation the record is 0, ..., k (no later strategy is invoked). If
every strategy returns a non-nil context and a nil error, `Execute` returns a
nil error with the context and the model of the last strategy, each strategy
having been invoked once, in plan order. -/
theorem Execute_fail_fast {Ctx C M : Type} (rt : Runtime)
    (strategies : List (Strategy Ctx C M)) (ctx : Option Ctx) (container : C) (model : M) :
    (∀ (k : Nat) (ctx1 : Ctx) (model1 : M) (err : defaultError),
      (returnsOf container strategies ctx model)[k]? = some (some ctx1, model1, some err) →
      (∀ q ∈ (returnsOf container strategies ctx model).take k, passed q = true) →
      Speedrail.Execute rt (some strategies) ctx container model = (some ctx1, model1, some err) ∧
      (∀ later : List (Strategy Ctx C M),
        Speedrail.Execute rt (some (strategies.take (k + 1) ++ later)) ctx container model =
          (some ctx1, model1, some err)) ∧
      Speedrail.Execute rt (some (recordingFrom 0 strategies)) ctx container (model, []) =
        (some ctx1, (model1, List.range (k + 1)), some err)) ∧
    ((∀ q ∈ returnsOf container strategies ctx model, passed q = true) →
      Speedrail.Execute rt (some strategies) ctx container model =
        ((finalState container strategies ctx model).1,
          (finalState container strategies ctx model).2, none) ∧
      Speedrail.Execute rt (some (recordingFrom 0 strategies)) ctx container (model, []) =
        ((finalState container strategies ctx model).1,
          ((finalState container strategies ctx model).2, List.range strategies.length),
          none)) := by
  constructor
  · intro k ctx1 model1 err hk hpre
    have key := Execute_loop_at rt container strategies ctx model k _ hk hpre
    have hrun : Speedrail.Execute.loop rt container strategies ctx model =
        (some ctx1, model1, some err) := by
      have := key (strategies.drop (k + 1))
      rwa [List.take_append_drop] at this
    refine ⟨hrun, fun later => key later, ?_⟩
    show Speedrail.Execute.loop rt container (recordingFrom 0 strategies) ctx (model, []) = _
    rw [Execute_loop_recording_halt rt container strategies 0 ctx model [] k _ hk hpre rfl,
      hrun, List.nil_append, List.range_eq_range']
  · intro h
    have hrun := Execute_loop_all_passed rt container strategies ctx model h
    refine ⟨hrun, ?_⟩
    show Speedrail.Execute.loop rt container (recordingFrom 0 strategies) ctx (model, []) = _
    rw [Execute_loop_recording_all rt container strategies 0 ctx model [] h, hrun,
      List.nil_append, List.range_eq_range']

/-- Witness of C1 on the plan `[exStep, exFail400, exStep]` and on the plan
`[exStep, exStep]`, started on the model 0. -/
theorem Execute_fail_fast_witness :
    (Speedrail.Execute exRuntime (some [exStep, exFail400, exStep]) (some ()) () 0 =
        (some (), 11, some exError400) ∧
      (∀ later : List (Strategy Unit Unit Nat),
        Speedrail.Execute exRuntime (some ([exStep, exFail400] ++ later)) (some ()) () 0 =
          (some (), 11, some exError400)) ∧
      Speedrail.Execute exRuntime (some (recordingFrom 0 [exStep, exFail400, exStep]))
          (some ()) () (0, []) =
        (some (), (11, [0, 1]), some exError400)) ∧
    (Speedrail.Execute exRuntime (some [exStep, exStep]) (some ()) () 0 = (some (), 2, none) ∧
      Speedrail.Execute exRuntime (some (recordingFrom 0 [exStep, exStep])) (some ()) () (0, []) =
        (some (), (2, [0, 1]), none)) :=
  ⟨(Execute_fail_fast exRuntime [exStep, exFail400, exStep] (some ()) () 0).1 1 () 11 exError400
      rfl (by decide),
    (Execute_fail_fast exRuntime [exStep, exStep] (some ()) () 0).2 (by decide)⟩

/-- C2, as stated, fails: the strategy `exDropContext` is invoked by `Execute`
and returns the non-nil error `exError400` together with a nil context; the
error that `Execute` returns is the no-context error, which is not
`exError400` and whose trail holds none of the entries of `exError400`. -/
theorem Execute_error_replaced_counterexample :
    (returnsOf () [exDropContext] (some ()) 0)[0]? = some (none, 100, some exError400) ∧
    Speedrail.Execute exRuntime (some [exDropContext]) (some ()) () 0 =
      (none, 100, some (NewError exRuntime (some ErrNoContextReturned) 500
        "no context returned by strategy")) ∧
    (Speedrail.Execute exRuntime (some [exDropContext]) (some ()) () 0).2.2 ≠ some exError400 ∧
    ∀ t ∈ exError400.Trail,
      t ∉ (NewError exRuntime (some ErrNoContextReturned) 500
        "no context returned by strategy").Trail := by
  decide

/-- C2, amended. Whenever a strategy that `Execute` invokes (every strategy
before it returned a non-nil context and a nil error) returns a non-nil context
together with a non-nil error `e`, the error that `Execute` returns is `e`: it
is non-nil and every entry of the trail of `e` is in its trail. -/
theorem Execute_error_surfaced {Ctx C M : Type} (rt : Runtime)
    (strategies : List (Strategy Ctx C M)) (ctx : Option Ctx) (container : C) (model : M)
    (k : Nat) (ctx1 : Ctx) (model1 : M) (e : defaultError)
    (hk : (returnsOf container strategies ctx model)[k]? = some (some ctx1, model1, some e))
    (hpre : ∀ q ∈ (returnsOf container strategies ctx model).take k, passed q = true) :
    (Speedrail.Execute rt (some strategies) ctx container model).2.2 = some e ∧
    ∃ d, (Speedrail.Execute rt (some strategies) ctx container model).2.2 = some d ∧
      ∀ t ∈ e.Trail, t ∈ d.Trail := by
  have key := Execute_loop_at rt container strategies ctx model k _ hk hpre
    (strategies.drop (k + 1))
  rw [List.take_append_drop] at key
  have h : (Speedrail.Execute rt (some strategies) ctx container model).2.2 = some e := by
    show (Speedrail.Execute.loop rt container strategies ctx model).2.2 = some e
    rw [key]; rfl
  exact ⟨h, e, h, fun t ht => ht⟩

/-- Witness of C2 amended, on the plan `[exStep, exFail400, exStep]`. -/
theorem Execute_error_surfaced_witness :
    (returnsOf () [exStep, exFail400, exStep] (some ()) 0)[1]? =
        some (some (), 11, some exError400) ∧
    (∀ q ∈ (returnsOf () [exStep, exFail400, exStep] (some ()) 0).take 1, passed q = true) ∧
    (Speedrail.Execute exRuntime (some [exStep, exFail400, exStep]) (some ()) () 0).2.2 =
        some exError400 ∧
    ∃ d, (Speedrail.Execute exRuntime (some [exStep, exFail400, exStep]) (some ()) () 0).2.2 =
        some d ∧ ∀ t ∈ exError400.Trail, t ∈ d.Trail :=
  ⟨rfl, by decide,
    Execute_error_surfaced exRuntime [exStep, exFail400, exStep] (some ()) () 0 1 () 11
      exError400 rfl (by decide)⟩

/-- C3. If the strategies before position `k` each return a non-nil context
and a nil error and the strategy at position `k` returns a nil context
(whatever error it returns), `Execute` halts there: it returns a non-nil error
of status code 500 that matches `ErrNoContextReturned`, with the model of that
strategy; every plan that agrees with this one up to position `k` returns the
same; and when the strategies record their position at each invocation the
record is 0, ..., k: no strategy after position `k` is invoked. -/
theorem Execute_no_context {Ctx C M : Type} (rt : Runtime)
    (strategies : List (Strategy Ctx C M)) (ctx : Option Ctx) (container : C) (model : M)
    (k : Nat) (model1 : M) (err : Option defaultError)
    (hk : (returnsOf container strategies ctx model)[k]? = some (none, model1, err))
    (hpre : ∀ q ∈ (returnsOf container strategies ctx model).take k, passed q = true) :
    ∃ d : defaultError,
      Speedrail.Execute rt (some strategies) ctx container model = (none, model1, some d) ∧
      d.StatusCode = 500 ∧
      d.Is (some ErrNoContextReturned) = true ∧
      (∀ later : List (Strategy Ctx C M),
        Speedrail.Execute rt (some (strategies.take (k + 1) ++ later)) ctx container model =
          (none, model1, some d)) ∧
      Speedrail.Execute rt (some (recordingFrom 0 strategies)) ctx container (model, []) =
        (none, (model1, List.range (k + 1)), some d) := by
  have key := Execute_loop_at rt container strategies ctx model k _ hk hpre
  have hrun : Speedrail.Execute.loop rt container strategies ctx model =
      (none, model1, some (NewError rt (some ErrNoContextReturned) StatusInternalServerError
        "no context returned by strategy")) := by
    have := key (strategies.drop (k + 1))
    rwa [List.take_append_drop] at this
  refine ⟨NewError rt (some ErrNoContextReturned) StatusInternalServerError
    "no context returned by strategy", hrun, rfl, ?_, fun later => key later, ?_⟩
  · simp [defaultError.Is, defaultError.Is.loop, NewError, errorsIs, errorsIs.is,
      GoError.comparable, ErrNoContextReturned]
  · show Speedrail.Execute.loop rt container (recordingFrom 0 strategies) ctx (model, []) = _
    rw [Execute_loop_recording_halt rt container strategies 0 ctx model [] k _ hk hpre rfl,
      hrun, List.nil_append, List.range_eq_range']

/-- Witness of C3 on the plan `[exStep, exDropContext, exStep]`. -/
theorem Execute_no_context_witness :
    (returnsOf () [exStep, exDropContext, exStep] (some ()) 0)[1]? =
        some (none, 101, some exError400) ∧
    (∀ q ∈ (returnsOf () [exStep, exDropContext, exStep] (some ()) 0).take 1,
      passed q = true) ∧
    ∃ d : defaultError,
      Speedrail.Execute exRuntime (some [exStep, exDropContext, exStep]) (some ()) () 0 =
        (none, 101, some d) ∧
      d.StatusCode = 500 ∧
      d.Is (some ErrNoContextReturned) = true ∧
      (∀ later : List (Strategy Unit Unit Nat),
        Speedrail.Execute exRuntime (some ([exStep, exDropContext] ++ later)) (some ()) () 0 =
          (none, 101, some d)) ∧
      Speedrail.Execute exRuntime (some (recordingFrom 0 [exStep, exDropContext, exStep]))
          (some ()) () (0, []) =
        (none, (101, [0, 1]), some d) :=
  ⟨rfl, by decide,
    Execute_no_context exRuntime [exStep, exDropContext, exStep] (some ()) () 0 1 101
      (some exError400) rfl (by decide)⟩

/-- C4. `Plan()` without arguments is the nil plan, and `Execute` on the nil
plan returns the given context and model unchanged together with a non-nil
error of status code 500 and message "no strategies to execute" that matches
`ErrNoStrategy`; the plan holds no strategy to invoke. -/
theorem Execute_nil_plan {Ctx C M : Type} (rt : Runtime) (ctx : Option Ctx) (container : C)
    (model : M) :
    Plan (variadic ([] : List (Strategy Ctx C M))) = none ∧
    ∃ d : defaultError,
      Speedrail.Execute rt (Plan (variadic ([] : List (Strategy Ctx C M)))) ctx container model =
        (ctx, model, some d) ∧
      d.StatusCode = 500 ∧
      d.Error = "no strategies to execute" ∧
      d.Is (some ErrNoStrategy) = true := by
  refine ⟨rfl, NewError rt (some ErrNoStrategy) StatusInternalServerError
    "no strategies to execute", rfl, rfl, rfl, ?_⟩
  simp [defaultError.Is, defaultError.Is.loop, NewError, errorsIs, errorsIs.is,
    GoError.comparable, ErrNoStrategy]

/-- C5, evaluated on the code. On a plan that is present and holds no strategy
`Execute` returns the given context and model with a nil error: not the
no-strategies error that the nil plan gets. -/
theorem Execute_empty_plan {Ctx C M : Type} (rt : Runtime) (ctx : Option Ctx) (container : C)
    (model : M) :
    Speedrail.Execute rt (some ([] : List (Strategy Ctx C M))) ctx container model =
      (ctx, model, none) := by
  rfl

/-! ## Lemmas on the loop of the strategy `Merge` -/

theorem Merge_loop_cons {Ctx C M : Type} (container : C) (strategy : Strategy Ctx C M)
    (rest : List (Strategy Ctx C M)) (ctx : Option Ctx) (model : M)
    (resultErr : Option defaultError) :
    Merge.loop container (strategy :: rest) ctx model resultErr =
      Merge.loop container rest (strategy ctx container model).1
        (strategy ctx container model).2.1
        (match (strategy ctx container model).2.2, resultErr with
          | none, acc => acc
          | some err, none => some err
          | some err, some acc => some (acc.Merge err)) := by
  rw [Merge.loop]
  rcases strategy ctx container model with ⟨ctx1, model1, _ | err⟩
  · rfl
  · cases resultErr <;> rfl

theorem Merge_loop_state {Ctx C M : Type} (container : C) :
    ∀ (strategies : List (Strategy Ctx C M)) (ctx : Option Ctx) (model : M)
      (resultErr : Option defaultError),
      ((Merge.loop container strategies ctx model resultErr).1,
        (Merge.loop container strategies ctx model resultErr).2.1) =
        finalState container strategies ctx model := by
  intro strategies
  induction strategies with
  | nil => intro ctx model resultErr; rfl
  | cons s rest ih =>
    intro ctx model resultErr
    rw [Merge_loop_cons, finalState_cons]
    exact ih _ _ _

theorem Merge_loop_recording {Ctx C M : Type} (container : C) :
    ∀ (strategies : List (Strategy Ctx C M)) (i : Nat) (ctx : Option Ctx) (model : M)
      (calls : List Nat) (resultErr : Option defaultError),
      Merge.loop container (recordingFrom i strategies) ctx (model, calls) resultErr =
        ((Merge.loop container strategies ctx model resultErr).1,
          ((Merge.loop container strategies ctx model resultErr).2.1,
            calls ++ List.range' i strategies.length),
          (Merge.loop container strategies ctx model resultErr).2.2) := by
  intro strategies
  induction strategies with
  | nil => intro i ctx model calls resultErr; simp [recordingFrom, Merge.loop]
  | cons s rest ih =>
    intro i ctx model calls resultErr
    rw [recordingFrom, Merge_loop_cons, Merge_loop_cons]
    simp only [recording]
    rw [ih]
    simp [List.range'_succ]

/-! ## Merging errors -/

/-- C7. For a non-empty list of errors each built by `NewError`, the chained
merge has a status code that is the maximum of the status codes given (none is
above it and one of them equals it), the messages given joined by "; " in
merge order as its message, and the trail entries of the errors in merge
order as its trail, which has as many entries as there are errors. -/
theorem mergeChain_of_NewError (first : NewErrorCall) (rest : List NewErrorCall) :
    (∀ call ∈ first :: rest,
      call.statusCode ≤ (mergeChain first.result (rest.map NewErrorCall.result)).StatusCode) ∧
    (∃ call ∈ first :: rest,
      call.statusCode = (mergeChain first.result (rest.map NewErrorCall.result)).StatusCode) ∧
    (mergeChain first.result (rest.map NewErrorCall.result)).Error =
      String.intercalate "; " ((first :: rest).map (fun call => call.outgoingMessage)) ∧
    (mergeChain first.result (rest.map NewErrorCall.result)).Trail =
      (first :: rest).flatMap (fun call => call.result.Trail) ∧
    (mergeChain first.result (rest.map NewErrorCall.result)).Trail.length =
      (first :: rest).length := by
  have htrail : (mergeChain first.result (rest.map NewErrorCall.result)).Trail =
      (first :: rest).flatMap (fun call => call.result.Trail) := by
    show (mergeChain first.result (rest.map NewErrorCall.result)).trail = _
    rw [mergeChain_trail]
    simp [List.flatMap, defaultError.Trail, Function.comp_def]
  refine ⟨?_, ?_, ?_, htrail, ?_⟩
  · intro call hcall
    have := mergeChain_status_ge first.result (rest.map NewErrorCall.result) call.result
      (by
        rcases List.mem_cons.1 hcall with h | h
        · subst h; exact List.mem_cons_self _ _
        · exact List.mem_cons_of_mem _ (List.mem_map_of_mem _ h))
    exact this
  · obtain ⟨e, he, heq⟩ := mergeChain_status_mem first.result (rest.map NewErrorCall.result)
    rcases List.mem_cons.1 he with h | h
    · subst h; exact ⟨first, List.mem_cons_self _ _, heq⟩
    · obtain ⟨call, hcall, rfl⟩ := List.mem_map.1 h
      exact ⟨call, List.mem_cons_of_mem _ hcall, heq⟩
  · show (mergeChain first.result (rest.map NewErrorCall.result)).outgoingMessage = _
    rw [mergeChain_message]
    simp [NewErrorCall.result, NewError, Function.comp_def]
  · rw [htrail]
    have hone : ∀ l : List NewErrorCall,
        (l.flatMap (fun call => call.result.Trail)).length = l.length := by
      intro l
      induction l with
      | nil => rfl
      | cons c l ih =>
        rw [List.flatMap_cons, List.length_append, ih]
        simp [NewErrorCall.result, NewError, defaultError.Trail]
        omega
    exact hone _

/-- Witness of C7 on the three errors of the test of `Merge` in
`error_test.go`: status 500, the three messages joined, three trail entries. -/
theorem mergeChain_of_NewError_witness :
    ((∀ call ∈ [exCall1, exCall2, exCall2],
      call.statusCode ≤
        (mergeChain exCall1.result ([exCall2, exCall2].map NewErrorCall.result)).StatusCode) ∧
    (∃ call ∈ [exCall1, exCall2, exCall2],
      call.statusCode =
        (mergeChain exCall1.result ([exCall2, exCall2].map NewErrorCall.result)).StatusCode) ∧
    (mergeChain exCall1.result ([exCall2, exCall2].map NewErrorCall.result)).Error =
      String.intercalate "; "
        ([exCall1, exCall2, exCall2].map (fun call => call.outgoingMessage)) ∧
    (mergeChain exCall1.result ([exCall2, exCall2].map NewErrorCall.result)).Trail =
      [exCall1, exCall2, exCall2].flatMap (fun call => call.result.Trail) ∧
    (mergeChain exCall1.result ([exCall2, exCall2].map NewErrorCall.result)).Trail.length =
      [exCall1, exCall2, exCall2].length) ∧
    (mergeChain exCall1.result ([exCall2, exCall2].map NewErrorCall.result)).StatusCode = 500 ∧
    (mergeChain exCall1.result ([exCall2, exCall2].map NewErrorCall.result)).Error =
      "error 1 message; error 2 message; error 2 message" ∧
    (mergeChain exCall1.result ([exCall2, exCall2].map NewErrorCall.result)).Trail.length = 3 :=
  ⟨mergeChain_of_NewError exCall1 [exCall2, exCall2], by decide, by decide, by decide⟩

/-- C9. The strategy `Merge` never short-circuits. Its context and model are
those of the run of the whole list in order, in which each strategy receives
what the one before it returned, with or without an error: the strategies
after the first one are run on what the first one returned, whatever its
error. When every strategy records its position at each invocation, the
record after `Merge` is 0, 1, ..., n - 1: each strategy is invoked exactly once
and in order. On the empty list the inputs come back unchanged. -/
theorem Merge_runs_every_strategy {Ctx C M : Type} (strategies : List (Strategy Ctx C M))
    (ctx : Option Ctx) (container : C) (model : M) :
    ((Merge strategies ctx container model).1, (Merge strategies ctx container model).2.1) =
      finalState container strategies ctx model ∧
    (∀ (first : Strategy Ctx C M) (rest : List (Strategy Ctx C M)),
      ((Merge (first :: rest) ctx container model).1,
        (Merge (first :: rest) ctx container model).2.1) =
      ((Merge rest (first ctx container model).1 container (first ctx container model).2.1).1,
        (Merge rest (first ctx container model).1 container
          (first ctx container model).2.1).2.1)) ∧
    Merge (recordingFrom 0 strategies) ctx container (model, []) =
      ((Merge strategies ctx container model).1,
        ((Merge strategies ctx container model).2.1, List.range strategies.length),
        (Merge strategies ctx container model).2.2) ∧
    Merge ([] : List (Strategy Ctx C M)) ctx container model = (ctx, model, none) := by
  refine ⟨Merge_loop_state container strategies ctx model none, ?_, ?_, rfl⟩
  · intro first rest
    show ((Merge.loop container (first :: rest) ctx model none).1,
      (Merge.loop container (first :: rest) ctx model none).2.1) = _
    rw [Merge_loop_state, finalState_cons]
    exact (Merge_loop_state container rest _ _ none).symm
  · show Merge.loop container (recordingFrom 0 strategies) ctx (model, []) none = _
    rw [Merge_loop_recording, List.nil_append, List.range_eq_range']
    rfl

/-! ## The strategy `Group` -/

theorem Group_loop_cons {Ctx C M : Type} (container : C) (strategy : Strategy Ctx C M)
    (rest : List (Strategy Ctx C M)) (ctx : Option Ctx) (model : M) :
    Group.loop container (strategy :: rest) ctx model =
      match (strategy ctx container model).2.2 with
      | some _ => strategy ctx container model
      | none =>
        Group.loop container rest (strategy ctx container model).1
          (strategy ctx container model).2.1 := by
  rw [Group.loop]
  rcases strategy ctx container model with ⟨ctx1, model1, _ | err⟩ <;> rfl

/-- The loop of `Group`, at the strategy in position `k` that it reaches. -/
theorem Group_loop_at {Ctx C M : Type} (container : C) :
    ∀ (strategies : List (Strategy Ctx C M)) (ctx : Option Ctx) (model : M) (k : Nat)
      (r : Option Ctx × M × Option defaultError),
      (returnsOf container strategies ctx model)[k]? = some r →
      (∀ q ∈ (returnsOf container strategies ctx model).take k, succeeded q = true) →
      ∀ post : List (Strategy Ctx C M),
        Group.loop container (strategies.take (k + 1) ++ post) ctx model =
          match r.2.2 with
          | some _ => r
          | none => Group.loop container post r.1 r.2.1 := by
  intro strategies
  induction strategies with
  | nil => intro ctx model k r h; simp [returnsOf] at h
  | cons s rest ih =>
    intro ctx model k r h hpre post
    cases k with
    | zero =>
      simp only [returnsOf, List.getElem?_cons_zero, Option.some.injEq] at h
      subst h
      simp only [Nat.zero_add, List.take_succ_cons, List.take_zero, List.cons_append,
        List.nil_append]
      exact Group_loop_cons container s post ctx model
    | succ k =>
      simp only [returnsOf, List.getElem?_cons_succ] at h
      simp only [returnsOf, List.take_succ_cons, List.mem_cons, forall_eq_or_imp] at hpre
      obtain ⟨h0, hrest⟩ := hpre
      have h1 : (s ctx container model).2.2 = none := by
        simpa [succeeded] using h0
      simp only [List.take_succ_cons, List.cons_append]
      rw [Group_loop_cons, h1]
      exact ih _ _ k r h hrest post

/-- The loop of `Group`, when no strategy fails. -/
theorem Group_loop_all_succeeded {Ctx C M : Type} (container : C) :
    ∀ (strategies : List (Strategy Ctx C M)) (ctx : Option Ctx) (model : M),
      (∀ q ∈ returnsOf container strategies ctx model, succeeded q = true) →
      Group.loop container strategies ctx model =
        ((finalState container strategies ctx model).1,
          (finalState container strategies ctx model).2, none) := by
  intro strategies
  induction strategies with
  | nil => intro ctx model _; rfl
  | cons s rest ih =>
    intro ctx model h
    simp only [returnsOf, List.mem_cons, forall_eq_or_imp] at h
    obtain ⟨h0, hrest⟩ := h
    have h1 : (s ctx container model).2.2 = none := by
      simpa [succeeded] using h0
    rw [finalState_cons, Group_loop_cons, h1]
    exact ih _ _ hrest

/-- The loop of `Group` on recording strategies, when it halts at position `k`. -/
theorem Group_loop_recording_halt {Ctx C M : Type} (container : C) :
    ∀ (strategies : List (Strategy Ctx C M)) (i : Nat) (ctx : Option Ctx) (model : M)
      (calls : List Nat) (k : Nat) (r : Option Ctx × M × Option defaultError),
      (returnsOf container strategies ctx model)[k]? = some r →
      (∀ q ∈ (returnsOf container strategies ctx model).take k, succeeded q = true) →
      succeeded r = false →
      Group.loop container (recordingFrom i strategies) ctx (model, calls) =
        (r.1, (r.2.1, calls ++ List.range' i (k + 1)), r.2.2) := by
  intro strategies
  induction strategies with
  | nil => intro i ctx model calls k r h; simp [returnsOf] at h
  | cons s rest ih =>
    intro i ctx model calls k r h hpre hr
    rw [recordingFrom, Group_loop_cons, recording_apply]
    cases k with
    | zero =>
      simp only [returnsOf, List.getElem?_cons_zero, Option.some.injEq] at h
      rw [h]
      rcases r with ⟨ctx1, model1, _ | err⟩
      · simp [succeeded] at hr
      · simp
    | succ k =>
      simp only [returnsOf, List.getElem?_cons_succ] at h
      simp only [returnsOf, List.take_succ_cons, List.mem_cons, forall_eq_or_imp] at hpre
      obtain ⟨h0, hrest⟩ := hpre
      have h1 : (s ctx container model).2.2 = none := by
        simpa [succeeded] using h0
      simp only [h1]
      rw [ih (i + 1) _ _ (calls ++ [i]) k r h hrest hr]
      simp [List.range'_succ]

/-- The loop of `Group` on recording strategies, when no strategy fails. -/
theorem Group_loop_recording_all {Ctx C M : Type} (container : C) :
    ∀ (strategies : List (Strategy Ctx C M)) (i : Nat) (ctx : Option Ctx) (model : M)
      (calls : List Nat),
      (∀ q ∈ returnsOf container strategies ctx model, succeeded q = true) →
      Group.loop container (recordingFrom i strategies) ctx (model, calls) =
        ((finalState container strategies ctx model).1,
          ((finalState container strategies ctx model).2,
            calls ++ List.range' i strategies.length), none) := by
  intro strategies
  induction strategies with
  | nil => intro i ctx model calls _; simp [recordingFrom, Group.loop, finalState, returnsOf]
  | cons s rest ih =>
    intro i ctx model calls h
    simp only [returnsOf, List.mem_cons, forall_eq_or_imp] at h
    obtain ⟨h0, hrest⟩ := h
    have h1 : (s ctx container model).2.2 = none := by
      simpa [succeeded] using h0
    rw [recordingFrom, Group_loop_cons, recording_apply, finalState_cons]
    simp only [h1]
    rw [ih (i + 1) _ _ (calls ++ [i]) hrest]
    simp [List.range'_succ]

/-- C11. `Group` is fail-fast. If the strategies before position `k` each
return a nil error and the strategy at position `k` returns a non-nil error,
`Group` returns exactly what that strategy returned (its context, nil or not,
its model and its error); so does the group of every list that agrees with
this one up to position `k`; and when the strategies record their position at
each invocation the record is 0, ..., k: no later strategy is invoked. If no
strategy returns an error, `Group` returns a nil error with the context and
the model of the last strategy (the inputs for the empty list), each strategy
having been invoked once, in order. -/
theorem Group_fail_fast {Ctx C M : Type} (strategies : List (Strategy Ctx C M))
    (ctx : Option Ctx) (container : C) (model : M) :
    (∀ (k : Nat) (ctx1 : Option Ctx) (model1 : M) (err : defaultError),
      (returnsOf container strategies ctx model)[k]? = some (ctx1, model1, some err) →
      (∀ q ∈ (returnsOf container strategies ctx model).take k, succeeded q = true) →
      Group strategies ctx container model = (ctx1, model1, some err) ∧
      (∀ later : List (Strategy Ctx C M),
        Group (strategies.take (k + 1) ++ later) ctx container model =
          (ctx1, model1, some err)) ∧
      Group (recordingFrom 0 strategies) ctx container (model, []) =
        (ctx1, (model1, List.range (k + 1)), some err)) ∧
    ((∀ q ∈ returnsOf container strategies ctx model, succeeded q = true) →
      Group strategies ctx container model =
        ((finalState container strategies ctx model).1,
          (finalState container strategies ctx model).2, none) ∧
      Group (recordingFrom 0 strategies) ctx container (model, []) =
        ((finalState container strategies ctx model).1,
          ((finalState container strategies ctx model).2, List.range strategies.length),
          none)) := by
  constructor
  · intro k ctx1 model1 err hk hpre
    have key := Group_loop_at container strategies ctx model k _ hk hpre
    refine ⟨?_, fun later => key later, ?_⟩
    · have := key (strategies.drop (k + 1))
      rwa [List.take_append_drop] at this
    · show Group.loop container (recordingFrom 0 strategies) ctx (model, []) = _
      rw [Group_loop_recording_halt container strategies 0 ctx model [] k _ hk hpre rfl,
        List.nil_append, List.range_eq_range']
  · intro h
    refine ⟨Group_loop_all_succeeded container strategies ctx model h, ?_⟩
    show Group.loop container (recordingFrom 0 strategies) ctx (model, []) = _
    rw [Group_loop_recording_all container strategies 0 ctx model [] h,
      List.nil_append, List.range_eq_range']

/-- Witness of C11 on the group of the test of `Group` (a failing strategy,
then one that would change the model) and on a group in which no strategy
fails. -/
theorem Group_fail_fast_witness :
    (Group [exFail400, exStep] (some ()) () 0 = (some (), 10, some exError400) ∧
      (∀ later : List (Strategy Unit Unit Nat),
        Group ([exFail400] ++ later) (some ()) () 0 = (some (), 10, some exError400)) ∧
      Group (recordingFrom 0 [exFail400, exStep]) (some ()) () (0, []) =
        (some (), (10, [0]), some exError400)) ∧
    (Group [exStep, exStep] (some ()) () 0 = (some (), 2, none) ∧
      Group (recordingFrom 0 [exStep, exStep]) (some ()) () (0, []) =
        (some (), (2, [0, 1]), none)) :=
  ⟨(Group_fail_fast [exFail400, exStep] (some ()) () 0).1 0 (some ()) 10 exError400
      rfl (by decide),
    (Group_fail_fast [exStep, exStep] (some ()) () 0).2 (by decide)⟩

/-! ## NewError -/

/-- C13. For every cause, present or absent, status code `s` and message `m`,
`NewError(cause, s, m)` has status code `s`, message `m` and a trail of exactly
one entry; the cause of that entry is the given cause when there is one, and
otherwise a new error whose message text is `m`. -/
theorem NewError_spec (rt : Runtime) (cause : Option GoError) (s : Int) (m : String) :
    (NewError rt cause s m).StatusCode = s ∧
    (NewError rt cause s m).Error = m ∧
    ∃ entry : ErrorWithTrail,
      (NewError rt cause s m).Trail = [entry] ∧
      (∀ c : GoError, cause = some c → entry.Error = some c) ∧
      (cause = none → ∃ e : GoError, entry.Error = some e ∧ e.Error = m) := by
  refine ⟨rfl, rfl, _, rfl, ?_, ?_⟩
  · intro c hc; subst hc; rfl
  · intro hc; subst hc; exact ⟨_, rfl, rfl⟩

/-- Witness of C13 on the last call of `NewError` in the test of `Merge` of
`error_test.go`, which gives no cause, and on a call that gives one. -/
theorem NewError_spec_witness :
    (∃ entry : ErrorWithTrail,
      (NewError exRuntime none 500 "error 3 message").Trail = [entry] ∧
      ∃ e : GoError, entry.Error = some e ∧ e.Error = "error 3 message") ∧
    (∃ entry : ErrorWithTrail,
      (NewError exRuntime (some (GoError.errorString 11 "error 1")) 500 "error 1 message").Trail =
        [entry] ∧
      entry.Error = some (GoError.errorString 11 "error 1")) :=
  ⟨(NewError_spec exRuntime none 500 "error 3 message").2.2.elim
      (fun entry h => ⟨entry, h.1, h.2.2 rfl⟩),
    (NewError_spec exRuntime (some (GoError.errorString 11 "error 1")) 500
      "error 1 message").2.2.elim
      (fun entry h => ⟨entry, h.1, h.2.1 _ rfl⟩)⟩

/-! ## If, IfElse and ThrowError -/

/-- C14. When `c(m)` is false, `If(c, s)` returns the given context and model
with a nil error, whatever `s` is, and a recording `s` records nothing: `s` is
not invoked. When `c(m)` is true, `If(c, s)` returns exactly what `s` returns
on the same inputs, and a recording `s` records one invocation. -/
theorem If_spec {Ctx C M : Type} (c : Condition M) (s : Strategy Ctx C M) (ctx : Option Ctx)
    (container : C) (m : M) :
    (c m = false →
      If c s ctx container m = (ctx, m, none) ∧
      (∀ other : Strategy Ctx C M, If c other ctx container m = (ctx, m, none)) ∧
      ∀ calls : List Nat,
        If (fun p : M × List Nat => c p.1) (recording 0 s) ctx container (m, calls) =
          (ctx, (m, calls), none)) ∧
    (c m = true →
      If c s ctx container m = s ctx container m ∧
      ∀ calls : List Nat,
        If (fun p : M × List Nat => c p.1) (recording 0 s) ctx container (m, calls) =
          ((s ctx container m).1, ((s ctx container m).2.1, calls ++ [0]),
            (s ctx container m).2.2)) := by
  constructor
  · intro h
    refine ⟨?_, fun other => ?_, fun calls => ?_⟩ <;> simp [If, h]
  · intro h
    refine ⟨?_, fun calls => ?_⟩ <;> simp [If, h, recording]

/-- Witness of C14 with the condition `exAtLeast5` and the strategy
`exFail400`, on the models 0 and 7. -/
theorem If_spec_witness :
    (If exAtLeast5 exFail400 (some ()) () 0 = (some (), 0, none) ∧
      (∀ other : Strategy Unit Unit Nat, If exAtLeast5 other (some ()) () 0 = (some (), 0, none)) ∧
      ∀ calls : List Nat,
        If (fun p : Nat × List Nat => exAtLeast5 p.1) (recording 0 exFail400) (some ()) ()
          (0, calls) = (some (), (0, calls), none)) ∧
    (If exAtLeast5 exFail400 (some ()) () 7 = exFail400 (some ()) () 7 ∧
      ∀ calls : List Nat,
        If (fun p : Nat × List Nat => exAtLeast5 p.1) (recording 0 exFail400) (some ()) ()
          (7, calls) =
          ((exFail400 (some ()) () 7).1, ((exFail400 (some ()) () 7).2.1, calls ++ [0]),
            (exFail400 (some ()) () 7).2.2)) :=
  ⟨(If_spec exAtLeast5 exFail400 (some ()) () 0).1 (by decide),
    (If_spec exAtLeast5 exFail400 (some ()) () 7).2 (by decide)⟩

/-- C15. `IfElse(c, t, f)` returns `t(ctx, container, m)` when `c(m)` is true
and `f(ctx, container, m)` when `c(m)` is false, where `m` is the model given;
with recording branches, the record after the call holds the one branch that
was chosen and nothing else. -/
theorem IfElse_spec {Ctx C M : Type} (c : Condition M) (t f : Strategy Ctx C M)
    (ctx : Option Ctx) (container : C) (m : M) :
    (c m = true →
      IfElse c t f ctx container m = t ctx container m ∧
      ∀ calls : List Nat,
        IfElse (fun p : M × List Nat => c p.1) (recording 0 t) (recording 1 f) ctx container
          (m, calls) =
          ((t ctx container m).1, ((t ctx container m).2.1, calls ++ [0]),
            (t ctx container m).2.2)) ∧
    (c m = false →
      IfElse c t f ctx container m = f ctx container m ∧
      ∀ calls : List Nat,
        IfElse (fun p : M × List Nat => c p.1) (recording 0 t) (recording 1 f) ctx container
          (m, calls) =
          ((f ctx container m).1, ((f ctx container m).2.1, calls ++ [1]),
            (f ctx container m).2.2)) := by
  constructor
  · intro h
    refine ⟨?_, fun calls => ?_⟩ <;> simp [IfElse, h, recording]
  · intro h
    refine ⟨?_, fun calls => ?_⟩ <;> simp [IfElse, h, recording]

/-- Witness of C15 with the condition `exAtLeast5` and the branches
`exFail400` and `exStep`, on the models 7 and 0. -/
theorem IfElse_spec_witness :
    (IfElse exAtLeast5 exFail400 exStep (some ()) () 7 = exFail400 (some ()) () 7 ∧
      ∀ calls : List Nat,
        IfElse (fun p : Nat × List Nat => exAtLeast5 p.1) (recording 0 exFail400)
          (recording 1 exStep) (some ()) () (7, calls) =
          ((exFail400 (some ()) () 7).1, ((exFail400 (some ()) () 7).2.1, calls ++ [0]),
            (exFail400 (some ()) () 7).2.2)) ∧
    (IfElse exAtLeast5 exFail400 exStep (some ()) () 0 = exStep (some ()) () 0 ∧
      ∀ calls : List Nat,
        IfElse (fun p : Nat × List Nat => exAtLeast5 p.1) (recording 0 exFail400)
          (recording 1 exStep) (some ()) () (0, calls) =
          ((exStep (some ()) () 0).1, ((exStep (some ()) () 0).2.1, calls ++ [1]),
            (exStep (some ()) () 0).2.2)) :=
  ⟨(IfElse_spec exAtLeast5 exFail400 exStep (some ()) () 7).1 (by decide),
    (IfElse_spec exAtLeast5 exFail400 exStep (some ()) () 0).2 (by decide)⟩

/-- C18. For every error value, nil included, `ThrowError(err)` returns the
given context and the given model unchanged together with exactly `err`. -/
theorem ThrowError_spec {Ctx C M : Type} (err : Option defaultError) (ctx : Option Ctx)
    (container : C) (model : M) :
    ThrowError err ctx container model = (ctx, model, err) ∧
    (ThrowError err ctx container model).1 = ctx ∧
    (ThrowError err ctx container model).2.1 = model ∧
    (ThrowError err ctx container model).2.2 = err :=
  ⟨rfl, rfl, rfl, rfl⟩

/-! ## Conditions -/

theorem And_loop_eq_all {M : Type} (model : M) (conditions : List (Condition M)) :
    And.loop model conditions = conditions.all (fun condition => condition model) := by
  induction conditions with
  | nil => rfl
  | cons c rest ih =>
    rw [And.loop, List.all_cons, ih]
    cases c model <;> simp

theorem Or_loop_eq_any {M : Type} (model : M) (conditions : List (Condition M)) :
    Or.loop model conditions = conditions.any (fun condition => condition model) := by
  induction conditions with
  | nil => rfl
  | cons c rest ih =>
    rw [Or.loop, List.any_cons, ih]
    cases c model <;> simp

/-- C16. For every list of conditions `cs`, of any length and whatever the
conditions are built from, and every model `m`, `And(cs...)(m)` is true if and
only if every condition of `cs` is true on `m`; `And(c1, c2)(m)` is
`c1(m) && c2(m)`; `And()` is true on every model; and on a list of conditions
that are themselves built by `And`, `Or` and `Not` the same reading holds at
each level. -/
theorem And_spec {M : Type} (cs : List (Condition M)) (m : M) :
    (And cs m = true ↔ ∀ c ∈ cs, c m = true) ∧
    (∀ c1 c2 : Condition M, And [c1, c2] m = (c1 m && c2 m)) ∧
    And ([] : List (Condition M)) m = true ∧
    (∀ (xs ys : List (Condition M)) (z : Condition M),
      And [And xs, Or ys, Not z] m = true ↔
        (∀ c ∈ xs, c m = true) ∧ (∃ c ∈ ys, c m = true) ∧ z m = false) := by
  refine ⟨?_, ?_, rfl, ?_⟩
  · simp [And, And_loop_eq_all]
  · intro c1 c2
    simp [And, And_loop_eq_all]
  · intro xs ys z
    simp [And, Or, Not, And_loop_eq_all, Or_loop_eq_any]

/-- C17. For every list of conditions `cs`, of any length and whatever the
conditions are built from, and every model `m`, `Or(cs...)(m)` is true if and
only if at least one condition of `cs` is true on `m`; `Or(c1, c2)(m)` is
`c1(m) || c2(m)`; `Or()` is false on every model; and on a list of conditions
that are themselves built by `And`, `Or` and `Not` the same reading holds at
each level. -/
theorem Or_spec {M : Type} (cs : List (Condition M)) (m : M) :
    (Or cs m = true ↔ ∃ c ∈ cs, c m = true) ∧
    (∀ c1 c2 : Condition M, Or [c1, c2] m = (c1 m || c2 m)) ∧
    Or ([] : List (Condition M)) m = false ∧
    (∀ (xs ys : List (Condition M)) (z : Condition M),
      Or [And xs, Or ys, Not z] m = true ↔
        (∀ c ∈ xs, c m = true) ∨ (∃ c ∈ ys, c m = true) ∨ z m = false) := by
  refine ⟨?_, ?_, rfl, ?_⟩
  · simp [Or, Or_loop_eq_any]
  · intro c1 c2
    simp [Or, Or_loop_eq_any]
  · intro xs ys z
    simp [And, Or, Not, And_loop_eq_all, Or_loop_eq_any]

/-! ## Associativity of merging -/

theorem digitChar_isDigit : ∀ d, d < 10 → (Nat.digitChar d).isDigit = true := by decide

theorem digitChar_value : ∀ d, d < 10 → (Nat.digitChar d).toNat - 48 = d := by decide

/-- Every character that `Nat.toDigitsCore` adds in base 10 is a digit. -/
theorem toDigitsCore_isDigit :
    ∀ (fuel n : Nat) (ds : List Char) (c : Char),
      c ∈ Nat.toDigitsCore 10 fuel n ds → c ∈ ds ∨ c.isDigit = true := by
  intro fuel
  induction fuel with
  | zero => intro n ds c h; exact Or.inl h
  | succ fuel ih =>
    intro n ds c h
    rw [Nat.toDigitsCore] at h
    have hd : (Nat.digitChar (n % 10)).isDigit = true :=
      digitChar_isDigit _ (Nat.mod_lt _ (by decide))
    split at h
    · rcases List.mem_cons.1 h with h | h
      · exact Or.inr (h ▸ hd)
      · exact Or.inl h
    · rcases ih _ _ c h with h | h
      · rcases List.mem_cons.1 h with h | h
        · exact Or.inr (h ▸ hd)
        · exact Or.inl h
      · exact Or.inr h

/-- The number that a list of decimal digits denotes, read after `acc`. -/
theorem toDigitsCore_value :
    ∀ (fuel n : Nat) (ds : List Char), n < fuel →
      (Nat.toDigitsCore 10 fuel n ds).foldl (fun acc c => 10 * acc + (c.toNat - 48)) 0 =
        ds.foldl (fun acc c => 10 * acc + (c.toNat - 48)) n := by
  intro fuel
  induction fuel with
  | zero => intro n ds h; omega
  | succ fuel ih =>
    intro n ds h
    rw [Nat.toDigitsCore]
    have hv : (Nat.digitChar (n % 10)).toNat - 48 = n % 10 :=
      digitChar_value _ (Nat.mod_lt _ (by decide))
    split
    · next h0 =>
      have hn : n % 10 = n := by omega
      simp only [List.foldl_cons, Nat.mul_zero, Nat.zero_add]
      rw [hv, hn]
    · next h0 =>
      have hlt : n / 10 < fuel := by omega
      rw [ih (n / 10) _ hlt]
      simp only [List.foldl_cons, hv]
      congr 1
      omega

theorem toDigits_injective (a b : Nat) (h : Nat.toDigits 10 a = Nat.toDigits 10 b) : a = b := by
  have ha := toDigitsCore_value (a + 1) a [] (Nat.lt_succ_self a)
  have hb := toDigitsCore_value (b + 1) b [] (Nat.lt_succ_self b)
  simp only [List.foldl_nil] at ha hb
  rw [← ha, ← hb]
  exact congrArg _ h

theorem toDigits_no_bracket (n : Nat) : ']' ∉ Nat.toDigits 10 n := by
  intro h
  rcases toDigitsCore_isDigit (n + 1) n [] ']' h with h | h
  · simp at h
  · exact absurd h (by decide)

theorem append_cons_cancel {α : Type} (c : α) :
    ∀ (xs ys a b : List α), c ∉ xs → c ∉ ys → xs ++ c :: a = ys ++ c :: b → xs = ys := by
  intro xs
  induction xs with
  | nil =>
    intro ys a b _ hy h
    cases ys with
    | nil => rfl
    | cons y ys =>
      simp only [List.nil_append, List.cons_append, List.cons.injEq] at h
      exact absurd (by rw [h.1]; exact List.mem_cons_self _ _) hy
  | cons x xs ih =>
    intro ys a b hx hy h
    cases ys with
    | nil =>
      simp only [List.nil_append, List.cons_append, List.cons.injEq] at h
      exact absurd (by rw [← h.1]; exact List.mem_cons_self _ _) hx
    | cons y ys =>
      simp only [List.cons_append, List.cons.injEq] at h
      rw [h.1, ih ys a b (fun hm => hx (List.mem_cons_of_mem _ hm))
        (fun hm => hy (List.mem_cons_of_mem _ hm)) h.2]

theorem sprintfKey_data (n : Nat) (label : String) :
    (sprintfKey n label).data = '[' :: (Nat.toDigits 10 n ++ ']' :: label.data) := by
  simp [sprintfKey, String.data_append]
  rfl

/-- Keys with different numbers in the brackets are different strings. -/
theorem sprintfKey_injective (a b : Nat) (la lb : String)
    (h : sprintfKey a la = sprintfKey b lb) : a = b := by
  have hd := congrArg String.data h
  rw [sprintfKey_data, sprintfKey_data] at hd
  simp only [List.cons.injEq, true_and] at hd
  exact toDigits_injective a b
    (append_cons_cancel ']' _ _ _ _ (toDigits_no_bracket a) (toDigits_no_bracket b) hd)

theorem keyOf_injective (i j : Nat) (e1 e2 : ErrorWithTrail) (h : keyOf i e1 = keyOf j e2) :
    i = j := by
  have := sprintfKey_injective _ _ _ _ h
  omega

/-! ## Lemmas on the loop of `Trail.MarshalJSON` -/

theorem GoMap_set_fresh (key value : String) :
    ∀ m : GoMap, key ∉ m.map Prod.fst → GoMap.set m key value = m ++ [(key, value)] := by
  intro m
  induction m with
  | nil => intro _; rfl
  | cons p rest ih =>
    intro h
    obtain ⟨k, v⟩ := p
    simp only [List.map_cons, List.mem_cons, not_or] at h
    rw [GoMap.set, if_neg (fun hk => h.1 hk.symm), ih h.2]
    rfl

theorem MarshalJSON_loop_cons (index : Nat) (err : ErrorWithTrail) (rest : List ErrorWithTrail)
    (result : GoMap) :
    Trail.MarshalJSON.loop index (err :: rest) result =
      match err.Error with
      | none => none
      | some cause =>
        Trail.MarshalJSON.loop (index + 1) rest (GoMap.set result (keyOf index err) cause.Error) := by
  rw [Trail.MarshalJSON.loop, keyOf, labelOf]
  split <;> rfl

theorem membersFrom_keys :
    ∀ (t : List ErrorWithTrail) (index : Nat) (key : String),
      key ∈ (membersFrom index t).map Prod.fst →
        ∃ (j : Nat) (entry : ErrorWithTrail), index ≤ j ∧ key = keyOf j entry := by
  intro t
  induction t with
  | nil => intro index key h; simp [membersFrom] at h
  | cons e rest ih =>
    intro index key h
    simp only [membersFrom, List.map_cons, List.mem_cons] at h
    rcases h with h | h
    · exact ⟨index, e, le_refl _, h⟩
    · obtain ⟨j, entry, hj, hkey⟩ := ih (index + 1) key h
      exact ⟨j, entry, by omega, hkey⟩

theorem membersFrom_length :
    ∀ (t : List ErrorWithTrail) (index : Nat), (membersFrom index t).length = t.length := by
  intro t
  induction t with
  | nil => intro index; rfl
  | cons e rest ih => intro index; simp [membersFrom, ih]

theorem membersFrom_nodup :
    ∀ (t : List ErrorWithTrail) (index : Nat), ((membersFrom index t).map Prod.fst).Nodup := by
  intro t
  induction t with
  | nil => intro index; simp [membersFrom]
  | cons e rest ih =>
    intro index
    simp only [membersFrom, List.map_cons, List.nodup_cons]
    refine ⟨?_, ih (index + 1)⟩
    intro h
    obtain ⟨j, entry, hj, hkey⟩ := membersFrom_keys rest (index + 1) _ h
    have := keyOf_injective _ _ _ _ hkey
    omega

theorem membersFrom_lookup :
    ∀ (t : List ErrorWithTrail) (index i : Nat) (entry : ErrorWithTrail),
      t[i]? = some entry →
      List.lookup (keyOf (index + i) entry) (membersFrom index t) =
        some ((entry.Error.map GoError.Error).getD "") := by
  intro t
  induction t with
  | nil => intro index i entry h; simp at h
  | cons e rest ih =>
    intro index i entry h
    cases i with
    | zero =>
      simp only [List.getElem?_cons_zero, Option.some.injEq] at h
      subst h
      simp [membersFrom, List.lookup_cons]
    | succ i =>
      simp only [List.getElem?_cons_succ] at h
      have hne : (keyOf (index + (i + 1)) entry == keyOf index e) = false := by
        rw [beq_eq_false_iff_ne]
        intro hk
        have := keyOf_injective _ _ _ _ hk
        omega
      rw [membersFrom, List.lookup_cons, hne]
      have := ih (index + 1) i entry h
      rw [show index + 1 + i = index + (i + 1) by omega] at this
      exact this

theorem membersFrom_key_mem :
    ∀ (t : List ErrorWithTrail) (index i : Nat) (entry : ErrorWithTrail),
      t[i]? = some entry → keyOf (index + i) entry ∈ (membersFrom index t).map Prod.fst := by
  intro t
  induction t with
  | nil => intro index i entry h; simp at h
  | cons a rest ih =>
    intro index i entry h
    cases i with
    | zero =>
      simp only [List.getElem?_cons_zero, Option.some.injEq] at h
      subst h
      simp [membersFrom]
    | succ i =>
      simp only [List.getElem?_cons_succ] at h
      have := ih (index + 1) i entry h
      rw [show index + 1 + i = index + (i + 1) by omega] at this
      simp only [membersFrom, List.map_cons]
      exact List.mem_cons_of_mem _ this

/-- The loop, on a trail in which every entry has a cause, adds one member for
each entry to a map that has none of their keys. -/
theorem MarshalJSON_loop_spec :
    ∀ (t : List ErrorWithTrail) (index : Nat) (m0 : GoMap),
      (∀ entry ∈ t, entry.Error ≠ none) →
      (∀ (j : Nat) (entry : ErrorWithTrail), index ≤ j → keyOf j entry ∉ m0.map Prod.fst) →
      Trail.MarshalJSON.loop index t m0 = some (m0 ++ membersFrom index t) := by
  intro t
  induction t with
  | nil => intro index m0 _ _; simp [Trail.MarshalJSON.loop, membersFrom]
  | cons e rest ih =>
    intro index m0 hcause hfresh
    rw [MarshalJSON_loop_cons]
    rcases he : e.Error with _ | cause
    · exact absurd he (hcause e (List.mem_cons_self _ _))
    · simp only
      rw [GoMap_set_fresh _ _ m0 (hfresh index e (le_refl _)),
        ih (index + 1) _ (fun entry h => hcause entry (List.mem_cons_of_mem _ h))]
      · simp [membersFrom, he]
      · intro j entry hj hmem
        simp only [List.map_append, List.map_cons, List.map_nil, List.mem_append,
          List.mem_singleton] at hmem
        rcases hmem with hmem | hmem
        · exact hfresh j entry (by omega) hmem
        · have := keyOf_injective _ _ _ _ hmem
          omega

/-- The loop has a result only when every entry has a cause. -/
theorem MarshalJSON_loop_some :
    ∀ (t : List ErrorWithTrail) (index : Nat) (m0 m : GoMap),
      Trail.MarshalJSON.loop index t m0 = some m → ∀ entry ∈ t, entry.Error ≠ none := by
  intro t
  induction t with
  | nil => intro index m0 m _ entry h; simp at h
  | cons e rest ih =>
    intro index m0 m h entry hentry
    rw [MarshalJSON_loop_cons] at h
    rcases he : e.Error with _ | cause
    · rw [he] at h; simp at h
    · rw [he] at h
      rcases List.mem_cons.1 hentry with h1 | h1
      · rw [h1, he]; simp
      · exact ih _ _ _ h entry h1

theorem MarshalJSON_result_eq (t : Trail) (hcause : ∀ entry ∈ t, entry.Error ≠ none) :
    Trail.MarshalJSON.result t = some (membersFrom 0 t) := by
  rw [Trail.MarshalJSON.result, MarshalJSON_loop_spec t 0 [] hcause (by simp)]
  rfl

/-! ## Trail.MarshalJSON -/

/-- C19, as stated, fails. The trail `exTrailNoCause` has one entry, whose
cause is nil: `Trail.MarshalJSON` panics on `err.Error.Error()` and there is no
serialized object, let alone one with as many members as the trail has
entries. -/
theorem MarshalJSON_nil_cause_counterexample :
    exTrailNoCause.length = 1 ∧
    Trail.MarshalJSON (fun m : GoMap => m) exTrailNoCause = none ∧
    ¬ ∃ m : GoMap,
      Trail.MarshalJSON (fun m : GoMap => m) exTrailNoCause = some m ∧
        m.length = exTrailNoCause.length := by
  refine ⟨rfl, by decide, ?_⟩
  rintro ⟨m, hm, _⟩
  have h : Trail.MarshalJSON (fun m : GoMap => m) exTrailNoCause = none := by decide
  rw [h] at hm
  exact absurd hm (by simp)

/-- C19, amended. The keys that `Trail.MarshalJSON` generates for entries at
different positions are different strings, whatever the origin names are; so,
for every trail whose entries all have a cause, the method hands to
`json.Marshal` a map that has exactly as many members as the trail has
entries, in which no key occurs twice and the key of every entry has a
member: no entry overwrites another. -/
theorem MarshalJSON_keys_distinct (t : Trail) (hcause : ∀ entry ∈ t, entry.Error ≠ none) :
    (∀ (i j : Nat) (e1 e2 : ErrorWithTrail), i ≠ j → keyOf i e1 ≠ keyOf j e2) ∧
    ∃ m : GoMap,
      (∀ (Bytes : Type) (jsonMarshal : GoMap → Bytes),
        Trail.MarshalJSON jsonMarshal t = some (jsonMarshal m)) ∧
      Trail.MarshalJSON.result t = some m ∧
      m.length = t.length ∧
      (m.map Prod.fst).Nodup ∧
      ∀ (i : Nat) (entry : ErrorWithTrail), t[i]? = some entry →
        keyOf i entry ∈ m.map Prod.fst ∧ (GoMap.get? m (keyOf i entry)).isSome = true := by
  have hres := MarshalJSON_result_eq t hcause
  refine ⟨fun i j e1 e2 hij h => hij (keyOf_injective i j e1 e2 h), membersFrom 0 t, ?_, hres,
    membersFrom_length t 0, membersFrom_nodup t 0, ?_⟩
  · intro Bytes jsonMarshal
    rw [Trail.MarshalJSON, hres]
    rfl
  · intro i entry hi
    have hlook := membersFrom_lookup t 0 i entry hi
    have hmem := membersFrom_key_mem t 0 i entry hi
    rw [Nat.zero_add] at hlook hmem
    exact ⟨hmem, by rw [GoMap.get?, hlook]; rfl⟩

/-- Witness of C19 amended on the trail `exTrail`: the method, with the
identity in the place of `json.Marshal`, returns a map of two members. -/
theorem MarshalJSON_keys_distinct_witness :
    (∀ entry ∈ exTrail, entry.Error ≠ none) ∧
    Trail.MarshalJSON (fun m : GoMap => m) exTrail =
      some [("[1]speedrail_test.errorTestFunction1", "error 1"), ("[2]main", "error 2")] ∧
    ∃ m : GoMap,
      (∀ (Bytes : Type) (jsonMarshal : GoMap → Bytes),
        Trail.MarshalJSON jsonMarshal exTrail = some (jsonMarshal m)) ∧
      Trail.MarshalJSON.result exTrail = some m ∧
      m.length = exTrail.length ∧
      (m.map Prod.fst).Nodup ∧
      ∀ (i : Nat) (entry : ErrorWithTrail), exTrail[i]? = some entry →
        keyOf i entry ∈ m.map Prod.fst ∧ (GoMap.get? m (keyOf i entry)).isSome = true :=
  ⟨by decide, by decide, (MarshalJSON_keys_distinct exTrail (by decide)).2⟩

/-! ## Group and the top-level plan -/

/-- The loops of `Execute` and of `Group` agree when every strategy that the
run invokes returns a non-nil context. -/
theorem Execute_loop_eq_Group_loop {Ctx C M : Type} (rt : Runtime) (container : C) :
    ∀ (strategies : List (Strategy Ctx C M)) (ctx : Option Ctx) (model : M),
      (∀ r ∈ untilFailure (returnsOf container strategies ctx model), r.1.isSome = true) →
      Speedrail.Execute.loop rt container strategies ctx model =
        Group.loop container strategies ctx model := by
  intro strategies
  induction strategies with
  | nil => intro ctx model _; rfl
  | cons s rest ih =>
    intro ctx model h
    rw [Execute_loop_cons, Group_loop_cons]
    simp only [returnsOf, untilFailure] at h
    rcases hs : s ctx container model with ⟨ctx1, model1, err⟩
    rw [hs] at h
    cases err with
    | some e =>
      have h0 := h (ctx1, model1, some e) (by simp [succeeded])
      cases ctx1 with
      | none => simp at h0
      | some c1 => rfl
    | none =>
      simp only [succeeded, Option.isNone_none, if_true, List.mem_cons, forall_eq_or_imp] at h
      obtain ⟨h0, hrest⟩ := h
      cases ctx1 with
      | none => simp at h0
      | some c1 => exact ih (some c1) model1 hrest

/-- C21. For every non-empty list of strategies and all inputs, if every
strategy that the run invokes returns a non-nil context, then
`Plan(ss...).Execute(ctx, container, model)` and
`Group(ss...)(ctx, container, model)` return the same context, the same model
and the same error. -/
theorem Plan_Execute_eq_Group {Ctx C M : Type} (rt : Runtime)
    (strategies : List (Strategy Ctx C M)) (ctx : Option Ctx) (container : C) (model : M)
    (hne : strategies ≠ [])
    (hctx : ∀ r ∈ untilFailure (returnsOf container strategies ctx model), r.1.isSome = true) :
    Speedrail.Execute rt (Plan (variadic strategies)) ctx container model =
      Group strategies ctx container model ∧
    (Speedrail.Execute rt (Plan (variadic strategies)) ctx container model).1 =
      (Group strategies ctx container model).1 ∧
    (Speedrail.Execute rt (Plan (variadic strategies)) ctx container model).2.1 =
      (Group strategies ctx container model).2.1 ∧
    (Speedrail.Execute rt (Plan (variadic strategies)) ctx container model).2.2 =
      (Group strategies ctx container model).2.2 := by
  have hplan : Plan (variadic strategies) = some strategies := by
    cases strategies with
    | nil => exact absurd rfl hne
    | cons s rest => rfl
  have heq : Speedrail.Execute rt (Plan (variadic strategies)) ctx container model =
      Group strategies ctx container model := by
    rw [hplan]
    exact Execute_loop_eq_Group_loop rt container strategies ctx model hctx
  exact ⟨heq, by rw [heq], by rw [heq], by rw [heq]⟩

/-- Witness of C21 on the list `[exStep, exFail400, exDropContext]`: the run
ends at the failing strategy, before the one that would return a nil context. -/
theorem Plan_Execute_eq_Group_witness :
    [exStep, exFail400, exDropContext] ≠ [] ∧
    (∀ r ∈ untilFailure (returnsOf () [exStep, exFail400, exDropContext] (some ()) 0),
      r.1.isSome = true) ∧
    Group [exStep, exFail400, exDropContext] (some ()) () 0 = (some (), 11, some exError400) ∧
    Speedrail.Execute exRuntime (Plan (variadic [exStep, exFail400, exDropContext])) (some ()) ()
        0 =
      Group [exStep, exFail400, exDropContext] (some ()) () 0 :=
  ⟨by simp, by decide, by decide,
    (Plan_Execute_eq_Group exRuntime [exStep, exFail400, exDropContext] (some ()) () 0
      (by simp) (by decide)).1⟩

/-! ## Merge and the storage of trails -/

/-- C6, evaluated on the code with the storage of trails. `abc` is
`e0.Merge(e1).Merge(e2)`, whose trail has length 3 and capacity 4. The call
`r3 := abc.Merge(e3)` returns an error that shows, at its return, the trail of
`abc` followed by that of `e3`, the larger status code and the joined message,
and leaves what `abc` and `e3` show unchanged; but `r3` is not a new error, its
trail lies in the backing array of `abc`: the later call `abc.Merge(e4)`
writes the entry of `e4` over the fourth entry that `r3` shows. -/
theorem Stored_Merge_result_shares_array :
    exStoredABC.1.trail = { array := 6, len := 3, cap := 4 } ∧
    (exStoredABC.1.value exStoredABC.2).trail = [exEntry 0, exEntry 1, exEntry 2] ∧
    (exStored3.1.value exStoredABC.2).trail = [exEntry 3] ∧
    exStoredR3.1.value exStoredR3.2 =
      (exStoredABC.1.value exStoredABC.2).Merge (exStored3.1.value exStoredABC.2) ∧
    (exStoredR3.1.value exStoredR3.2).trail =
      [exEntry 0, exEntry 1, exEntry 2, exEntry 3] ∧
    exStoredABC.1.value exStoredR3.2 = exStoredABC.1.value exStoredABC.2 ∧
    exStored3.1.value exStoredR3.2 = exStored3.1.value exStoredABC.2 ∧
    exStoredR3.1.trail.array = exStoredABC.1.trail.array ∧
    (exStoredR3.1.value exStoredR4.2).trail =
      [exEntry 0, exEntry 1, exEntry 2, exEntry 4] ∧
    exStoredR3.1.value exStoredR4.2 ≠ exStoredR3.1.value exStoredR3.2 := by
  decide

/-- C10, evaluated on the code with the storage of trails. In one call of
`Merge(Merge(ThrowError(abc), ThrowError(e3)), Merge(ThrowError(abc),
ThrowError(e4)))` the first step returns an error that shows the entries 0, 1,
2, 3 and the second step one that shows the entries 0, 1, 2, 4; the second
step wrote its fourth entry into the backing array that the error of the
first step still uses, and the error that `Merge` returns shows the trail 0,
1, 2, 4, 0, 1, 2, 4: it is not the concatenation of the trails that the steps
returned, the entry 3 is lost. The status code and the message are those of
the fold. -/
theorem Stored_Merge_loses_trail_entry :
    Stored.shown (exMerge3 exStoredABC.2 (some ()) () 0) =
      some { trail := [exEntry 0, exEntry 1, exEntry 2, exEntry 3]
             outgoingMessage := "m0; m1; m2; m3"
             statusCode := 400 } ∧
    Stored.shown (exMerge4 (exMerge3 exStoredABC.2 (some ()) () 0).1 (some ()) () 0) =
      some { trail := [exEntry 0, exEntry 1, exEntry 2, exEntry 4]
             outgoingMessage := "m0; m1; m2; m4"
             statusCode := 400 } ∧
    Stored.shown (exNestedMerge exStoredABC.2 (some ()) () 0) =
      some { trail := [exEntry 0, exEntry 1, exEntry 2, exEntry 4,
                       exEntry 0, exEntry 1, exEntry 2, exEntry 4]
             outgoingMessage := "m0; m1; m2; m3; m0; m1; m2; m4"
             statusCode := 400 } ∧
    (∀ d : speedrail.defaultError,
      Stored.shown (exNestedMerge exStoredABC.2 (some ()) () 0) = some d →
        exEntry 3 ∉ d.Trail ∧
        d.Trail ≠ [exEntry 0, exEntry 1, exEntry 2, exEntry 3] ++
          [exEntry 0, exEntry 1, exEntry 2, exEntry 4]) := by
  refine ⟨by decide, by decide, by decide, ?_⟩
  intro d hd
  have h : Stored.shown (exNestedMerge exStoredABC.2 (some ()) () 0) =
      some { trail := [exEntry 0, exEntry 1, exEntry 2, exEntry 4,
                       exEntry 0, exEntry 1, exEntry 2, exEntry 4]
             outgoingMessage := "m0; m1; m2; m3; m0; m1; m2; m4"
             statusCode := 400 } := by decide
  rw [h, Option.some.injEq] at hd
  subst hd
  decide

end speedrail
